import Mathlib

/-!
Verification development for the edena OAST capture server.

The Go sources are shallowly embedded: each Lean definition mirrors one Go
function (the Go name is kept where Lean allows).  JSON / gob
(de)serialisation round-trips are modelled as the identity on the decoded
values, and the certmagic storage used by the zone record store is modelled
by the result its Load call produces.  All definitions come first, then the
theorems about them.
-/

set_option autoImplicit false

namespace Edena

/-! ## Zone record store (pkg dns, zonefile persistence)

A libdns.Record.  The Go field Type is called rtype here because type is a
Lean keyword; ID is id, Name is name, Value is value. -/

structure LibdnsRecord where
  id : String
  name : String
  rtype : String
  value : String
deriving DecidableEq, Repr

/-- Result of certmagic Storage.Load for a zone's storage key: either the
decoded zonefile (JSON decoding modelled as identity), the distinguished
certmagic.ErrNotExist, or any other load error. -/
inductive LoadResult where
  | ok (recs : List LibdnsRecord)
  | errNotExist
  | errOther
deriving DecidableEq, Repr

/-- The match condition shared by AppendRecords and DeleteRecords, verbatim
from the Go sources: (newRec.ID != "" && newRec.ID == rec.ID) ||
(newRec.Name == rec.Name && newRec.Type == rec.Type). -/
def recMatches (target rec : LibdnsRecord) : Bool :=
  (decide (target.id ≠ "") && decide (target.id = rec.id)) ||
    (decide (target.name = rec.name) && decide (target.rtype = rec.rtype))

/-- The candidate loop of AppendRecords: for each new record, skip it when a
record of the evolving set matches it, otherwise append it and report it as
created.  Returns (final record set, created records). -/
def appendLoop : List LibdnsRecord → List LibdnsRecord →
    List LibdnsRecord × List LibdnsRecord
  | recs, [] => (recs, [])
  | recs, newRec :: rest =>
    if recs.any (fun rec => recMatches newRec rec) then
      appendLoop recs rest
    else
      let res := appendLoop (recs ++ [newRec]) rest
      (res.1, newRec :: res.2)

/-- Outcome of a zone record store operation.  The stored component of ok is
the record list persisted under the zone's storage key at return time.
panic models a Go runtime panic escaping the function. -/
inductive ZoneOpResult where
  | ok (returned : List LibdnsRecord) (stored : List LibdnsRecord)
  | err
  | panic
deriving DecidableEq, Repr

/-- Server.AppendRecords: load the zonefile, absorbing certmagic.ErrNotExist
(the errors.As target there is a pointer to a fresh interface variable, so
the check is well-formed); dedupe-append the candidates; store the full
updated set; return the newly created subset. -/
def AppendRecords (load : LoadResult) (newRecs : List LibdnsRecord) : ZoneOpResult :=
  match load with
  | .errOther => .err
  | .errNotExist =>
    let res := appendLoop [] newRecs
    .ok res.2 res.1
  | .ok recs =>
    let res := appendLoop recs newRecs
    .ok res.2 res.1

/-- The inner loop of the DeleteRecords filter for one delete candidate: walk
the full original record list; a matching record contributes the candidate to
deletedRecs, a non-matching record is appended to filteredRecs.  Returns
(kept records appended this pass, deleted records appended this pass). -/
def deleteInner (deleteRec : LibdnsRecord) :
    List LibdnsRecord → List LibdnsRecord × List LibdnsRecord
  | [] => ([], [])
  | rec :: rest =>
    let res := deleteInner deleteRec rest
    if recMatches deleteRec rec then
      (res.1, deleteRec :: res.2)
    else
      (rec :: res.1, res.2)

/-- The DeleteRecords filter: the outer loop ranges over the delete
candidates and, for each, the inner loop ranges over the whole original
record list again, so every kept record is appended once per candidate.
Go's filteredRecs reuses recs' backing array (recs[:0]); on inputs where no
candidate matches any record every in-place write rewrites the value already
present and later appends land beyond the indices the range loop still reads,
so this pure rendering is byte-exact there (in particular on the inputs used
below). -/
def deleteFilter (recs : List LibdnsRecord) :
    List LibdnsRecord → List LibdnsRecord × List LibdnsRecord
  | [] => ([], [])
  | deleteRec :: rest =>
    let pass := deleteInner deleteRec recs
    let res := deleteFilter recs rest
    (pass.1 ++ res.1, pass.2 ++ res.2)

/-- Server.DeleteRecords.  Its load error branch declares
var errNotExist *certmagic.ErrNotExist and passes that nil typed pointer to
errors.As, which panics on a nil target; the && short-circuit means the call
is reached exactly when Load returned a non-nil error (including the
not-exist error for an absent zonefile). -/
def DeleteRecords (load : LoadResult) (deleteRecs : List LibdnsRecord) : ZoneOpResult :=
  match load with
  | .errOther => .panic
  | .errNotExist => .panic
  | .ok recs =>
    let res := deleteFilter recs deleteRecs
    .ok res.2 res.1

/-- Result of Server.GetRecords. -/
inductive GetResult where
  | ok (recs : List LibdnsRecord)
  | err
deriving DecidableEq, Repr

/-- Server.GetRecords: a missing zonefile yields the empty record set, other
load errors are returned, otherwise the decoded zonefile is returned. -/
def GetRecords (load : LoadResult) : GetResult :=
  match load with
  | .errNotExist => .ok []
  | .errOther => .err
  | .ok recs => .ok recs

/-- Specification-level rendering of the AppendRecords candidate rule, from
the spec's words: for each candidate record, skip it if an existing record
shares its id, or shares both name and type, otherwise append it; the
existing set grows as candidates are appended.  Only the created sublist is
computed; the persisted set is the existing records followed by it. -/
def specAppendCreated (existing : List LibdnsRecord) :
    List LibdnsRecord → List LibdnsRecord
  | [] => []
  | cand :: rest =>
    if existing.any (fun rec => recMatches cand rec) then
      specAppendCreated existing rest
    else
      cand :: specAppendCreated (existing ++ [cand]) rest

/-! Sample records used for concrete evaluations below. -/

def recA : LibdnsRecord := ⟨"1", "a", "TXT", "v1"⟩
def recB : LibdnsRecord := ⟨"2", "b", "TXT", "v2"⟩
def recD1 : LibdnsRecord := ⟨"", "c", "TXT", "x"⟩
def recD2 : LibdnsRecord := ⟨"", "d", "TXT", "y"⟩

/-! ## DNS responder (pkg dns, ServeDNS and MessageFromRecord)

String helpers are written over the character list so they are structurally
recursive and kernel-reducible.  Domain names in scope are plain ASCII
without escaped label separators, so Go's Unicode ToLower and miekg's
escape-aware label walking coincide with these renderings. -/

def lowerChar (c : Char) : Char :=
  if 65 ≤ c.toNat ∧ c.toNat ≤ 90 then Char.ofNat (c.toNat + 32) else c

def lowerAsciiStr (s : String) : String :=
  String.mk (s.data.map lowerChar)

def endsWithDot (s : String) : Bool :=
  s.data.getLast? = some (Char.ofNat 46)

/-- dns.Fqdn: append a trailing dot when absent. -/
def fqdn (s : String) : String :=
  if endsWithDot s then s else s ++ "."

/-- strings.TrimSuffix(s, ".") for the single trailing dot. -/
def trimSuffixDot (s : String) : String :=
  if endsWithDot s then String.mk s.data.dropLast else s

/-- dns.CanonicalName: lowercase the fully qualified name. -/
def canonicalName (s : String) : String :=
  lowerAsciiStr (fqdn s)

/-- storageKey from the zone record store: path.Join("dns", canonical zone
name without its trailing dot). -/
def storageKey (zone : String) : String :=
  let zoneKey := trimSuffixDot (canonicalName zone)
  if zoneKey = "" then "dns" else "dns/" ++ zoneKey

def splitLabelsGo (acc : List Char) : List Char → List String
  | [] => [String.mk acc.reverse]
  | c :: rest =>
    if c = Char.ofNat 46 then String.mk acc.reverse :: splitLabelsGo [] rest
    else splitLabelsGo (c :: acc) rest

/-- The labels of a domain name, the trailing root dot dropped; the root
name itself has no labels (dns.CountLabel / dns.SplitDomainName). -/
def nameLabels (s : String) : List String :=
  let t := if endsWithDot s then String.mk s.data.dropLast else s
  if t = "" then [] else splitLabelsGo [] t.data

/-- miekg label comparison is ASCII case-insensitive. -/
def labelEq (a b : String) : Bool :=
  lowerAsciiStr a = lowerAsciiStr b

/-- dns.IsSubDomain(parent, child): CompareDomainName(parent, child) equals
CountLabel(parent), i.e. every label of parent matches the corresponding
trailing label of child. -/
def isSubDomain (parent child : String) : Bool :=
  let p := nameLabels parent
  let c := nameLabels child
  decide (p.length ≤ c.length) &&
    ((c.drop (c.length - p.length)).zip p).all (fun x => labelEq x.1 x.2)

/-- strings.Trim(s, "."): strip leading and trailing dots. -/
def trimDots (s : String) : String :=
  String.mk (((s.data.dropWhile (· = Char.ofNat 46)).reverse.dropWhile
    (· = Char.ofNat 46)).reverse)

/-- libdns.AbsoluteName. -/
def absoluteName (name zone : String) : String :=
  if zone = "" then trimDots name
  else if name = "" ∨ name = "@" then zone
  else if endsWithDot name then name
  else name ++ "." ++ zone

/-- dns.StringToType of miekg/dns v1.1.42 (the reverse of TypeToString). -/
def typeTable : List (String × Nat) :=
  [("NONE", 0), ("A", 1), ("NS", 2), ("MD", 3), ("MF", 4), ("CNAME", 5),
   ("SOA", 6), ("MB", 7), ("MG", 8), ("MR", 9), ("NULL", 10), ("PTR", 12),
   ("HINFO", 13), ("MINFO", 14), ("MX", 15), ("TXT", 16), ("RP", 17),
   ("AFSDB", 18), ("X25", 19), ("ISDN", 20), ("RT", 21), ("NSAP-PTR", 23),
   ("SIG", 24), ("KEY", 25), ("PX", 26), ("GPOS", 27), ("AAAA", 28),
   ("LOC", 29), ("NXT", 30), ("EID", 31), ("NIMLOC", 32), ("SRV", 33),
   ("ATMA", 34), ("NAPTR", 35), ("KX", 36), ("CERT", 37), ("DNAME", 39),
   ("OPT", 41), ("APL", 42), ("DS", 43), ("SSHFP", 44), ("RRSIG", 46),
   ("NSEC", 47), ("DNSKEY", 48), ("DHCID", 49), ("NSEC3", 50),
   ("NSEC3PARAM", 51), ("TLSA", 52), ("SMIMEA", 53), ("HIP", 55),
   ("NINFO", 56), ("RKEY", 57), ("TALINK", 58), ("CDS", 59), ("CDNSKEY", 60),
   ("OPENPGPKEY", 61), ("CSYNC", 62), ("ZONEMD", 63), ("SVCB", 64),
   ("HTTPS", 65), ("SPF", 99), ("UINFO", 100), ("UID", 101), ("GID", 102),
   ("UNSPEC", 103), ("NID", 104), ("L32", 105), ("L64", 106), ("LP", 107),
   ("EUI48", 108), ("EUI64", 109), ("TKEY", 249), ("TSIG", 250),
   ("IXFR", 251), ("AXFR", 252), ("MAILB", 253), ("MAILA", 254),
   ("ANY", 255), ("URI", 256), ("CAA", 257), ("AVC", 258), ("TA", 32768),
   ("DLV", 32769), ("Reserved", 65535)]

def stringToType (s : String) : Option Nat :=
  typeTable.lookup s

/-- Wire resource records as synthesized by the responder. -/
inductive RR where
  | soaRR (name ns mbox : String) (ttl serial refresh retry expire minttl : Nat)
  | nsRR (name : String) (ttl : Nat) (ns : String)
  | txtRR (name : String) (ttl : Nat) (txt : List String)
deriving DecidableEq, Repr

/-- MessageFromRecord: only TXT (type code 16) is convertible; a recognized
but unsupported type and an unrecognized type both yield errors (with
different messages). -/
def MessageFromRecord (zone : String) (rec : LibdnsRecord) : Except String RR :=
  match stringToType rec.rtype with
  | none => .error ("dns: unknown record type " ++ rec.rtype)
  | some rrType =>
    if rrType = 16 then .ok (.txtRR (absoluteName rec.name zone) 3600 [rec.value])
    else .error ("dns: unsupported record type " ++ rec.rtype)

structure Question where
  name : String
  qtype : Nat
deriving DecidableEq, Repr

/-- What the responder does with an inbound message: drop it silently, or
write a reply with the given authoritative flag and answer section. -/
inductive DnsAction where
  | noReply
  | reply (authoritative : Bool) (answers : List RR)
deriving DecidableEq, Repr

/-- The default branch loop of ServeDNS: records whose type is absent from
dns.StringToType are skipped; a MessageFromRecord failure makes the handler
return at once, so the reply carries only the answers accumulated so far. -/
def buildAnswers (name : String) : List LibdnsRecord → List RR → List RR
  | [], acc => acc
  | rec :: rest, acc =>
    if (stringToType rec.rtype).isSome then
      match MessageFromRecord name rec with
      | .error _ => acc
      | .ok rr => buildAnswers name rest (acc ++ [rr])
    else buildAnswers name rest acc

/-- ServeDNS (pkg/dns/handler.go).  soaHostname is the server's stored field
(WithSOAHostname stores dns.Fqdn of the configured value); storage maps a
storage key to what Load returns for it.  SetReply leaves Authoritative
false and the answer section empty, and only the first question is ever
inspected. -/
def ServeDNS (soaHostname : String) (storage : String → LoadResult)
    (questions : List Question) : DnsAction :=
  match questions with
  | [] => .noReply
  | q0 :: _ =>
    if !(isSubDomain (fqdn soaHostname) (fqdn q0.name)) then .reply false []
    else if q0.qtype = 6 then
      .reply true [.soaRR q0.name (fqdn (absoluteName "ns1" soaHostname))
        (absoluteName "hostmaster" soaHostname) 0 1 86400 7200 3600000 3600]
    else if q0.qtype = 2 then
      .reply true [.nsRR q0.name 3600 (fqdn (absoluteName "ns1" soaHostname))]
    else
      match GetRecords (storage (storageKey q0.name)) with
      | .err => .reply true []
      | .ok recs => .reply true (buildAnswers q0.name recs [])

/-- The TXT conversions of the TXT-typed records of a stored set, in order:
what the answer section holds when no stored record has a recognized
non-TXT type. -/
def txtAnswers (name : String) (recs : List LibdnsRecord) : List RR :=
  (recs.filter (fun r => r.rtype = "TXT")).map
    (fun r => .txtRR (absoluteName r.name name) 3600 [r.value])

/-- Sample storage: one zone whose zonefile holds an A record followed by a
TXT record. -/
def sampleStorageAthenTXT : String → LoadResult := fun k =>
  if k = "dns/x.example.com" then
    .ok [⟨"", "x", "A", "1.2.3.4"⟩, ⟨"", "x", "TXT", "hello"⟩]
  else .errNotExist

/-- Sample storage: one zone whose zonefile holds a single TXT record. -/
def sampleStorageTXT : String → LoadResult := fun k =>
  if k = "dns/x.example.com" then .ok [⟨"", "x", "TXT", "hello"⟩]
  else .errNotExist

/-! ## Management API host-id validation (pkg http, parseHostIDs)

ULIDs are represented by their 16 raw bytes, Go strings by their UTF-8
bytes. -/

def strBytes (s : String) : List Nat :=
  (s.data.flatMap (fun c => String.utf8EncodeChar c)).map (fun b => b.toNat)

/-- The byte-level case fold used to read the dec table of oklog/ulid. -/
def upperByte (b : Nat) : Nat :=
  if 97 ≤ b ∧ b ≤ 122 then b - 32 else b

/-- The Crockford base32 alphabet of oklog/ulid (I, L, O, U excluded). -/
def crockfordAlphabet : List Char :=
  "0123456789ABCDEFGHJKMNPQRSTVWXYZ".data

/-- The dec table of oklog/ulid v1.3.1: the base32 digit value of a byte,
case-insensitively; bytes outside the alphabet map to 0xFF.  The non-strict
Parse never checks for 0xFF — that check belongs to ParseStrict — so the
0xFF entries simply flow into the decoded bytes of an undefined ULID. -/
def ulidDec (b : Nat) : Nat :=
  match crockfordAlphabet.findIdx? (fun a => a.toNat = upperByte b) with
  | some i => i
  | none => 0xFF

/-- The byte assembly of ulid parse (6 timestamp bytes then 10 entropy
bytes); the shifts are Go byte shifts, truncating to 8 bits. -/
def ulidParseBytes (v : List Nat) : List Nat :=
  let d := fun i => ulidDec (v.getD i 0)
  [Nat.lor (d 0 * 32 % 256) (d 1),
   Nat.lor (d 2 * 8 % 256) (d 3 / 4),
   Nat.lor (Nat.lor (d 3 * 64 % 256) (d 4 * 2 % 256)) (d 5 / 16),
   Nat.lor (d 5 * 16 % 256) (d 6 / 2),
   Nat.lor (Nat.lor (d 6 * 128 % 256) (d 7 * 4 % 256)) (d 8 / 8),
   Nat.lor (d 8 * 32 % 256) (d 9),
   Nat.lor (d 10 * 8 % 256) (d 11 / 4),
   Nat.lor (Nat.lor (d 11 * 64 % 256) (d 12 * 2 % 256)) (d 13 / 16),
   Nat.lor (d 13 * 16 % 256) (d 14 / 2),
   Nat.lor (Nat.lor (d 14 * 128 % 256) (d 15 * 4 % 256)) (d 16 / 8),
   Nat.lor (d 16 * 32 % 256) (d 17),
   Nat.lor (d 18 * 8 % 256) (d 19 / 4),
   Nat.lor (Nat.lor (d 19 * 64 % 256) (d 20 * 2 % 256)) (d 21 / 16),
   Nat.lor (d 21 * 16 % 256) (d 22 / 2),
   Nat.lor (Nat.lor (d 22 * 128 % 256) (d 23 * 4 % 256)) (d 24 / 8),
   Nat.lor (d 24 * 32 % 256) (d 25)]

/-- ulid.Parse of oklog/ulid v1.3.1, the non-strict variant parseHostIDs
calls.  It performs exactly two checks: the byte length must be 26
(ErrDataSize) and the first byte at most the character 7 (ErrOverflow,
since base32 encodes 130 bits into the 128-bit ULID).  Character
validation is performed only by ParseStrict; a 26-byte input holding bytes
outside the base32 alphabet is accepted and decodes — via the 0xFF dec
entries — into an undefined but deterministic ULID. -/
def ulidParse (s : String) : Option (List Nat) :=
  let v := strBytes s
  if v.length ≠ 26 then none
  else if 55 < v.headD 0 then none
  else some (ulidParseBytes v)

inductive APIErrorKind where
  | missingHostID
  | tooManyHostIDs
  | malformedHostID
deriving DecidableEq, Repr

/-- Insertion into the deduplicating collection.  Go uses a map and then
ranges over it, so the order of the returned ids is unspecified; this model
returns first-occurrence order, and nothing proved below depends on it. -/
def insertDedup (l : List (List Nat)) (x : List Nat) : List (List Nat) :=
  if l.contains x then l else l ++ [x]

def parseHostIDsGo : List String → List (List Nat) →
    Except APIErrorKind (List (List Nat))
  | [], acc => .ok acc
  | rawID :: rest, acc =>
    match ulidParse rawID with
    | none => .error .malformedHostID
    | some v => parseHostIDsGo rest (insertDedup acc v)

/-- parseHostIDs of pkg/http/handler.go: reject zero raw parameters and
more than 20 raw parameters before parsing; then parse each id, failing on
the first one ulid.Parse rejects, deduplicating the parsed values. -/
def parseHostIDs (rawIDs : List String) : Except APIErrorKind (List (List Nat)) :=
  if rawIDs.length = 0 then .error .missingHostID
  else if 20 < rawIDs.length then .error .tooManyHostIDs
  else parseHostIDsGo rawIDs []

/-- The ListHTTPLogEntries HTTP handler, with the storage-backed service
call abstracted as backend: a parse failure is written as a 400 API error
before the service (and hence storage) is ever consulted. -/
def ListHTTPLogEntriesHandler {α : Type} (backend : List (List Nat) → Except Unit α)
    (rawIDs : List String) : Nat × Option α :=
  match parseHostIDs rawIDs with
  | .error _ => (400, none)
  | .ok hostIDs =>
    match backend hostIDs with
    | .error _ => (500, none)
    | .ok data => (200, some data)

/-- A canonical valid ULID string. -/
def ulidSample : String := "01ARZ3NDEKTSV4RRFFQ69G5FAV"

/-- Twenty-six bytes outside the base32 alphabet; the non-strict Parse
accepts it (length 26, first byte 33 below the overflow bound). -/
def ulidGarbage : String := "!!!!!!!!!!!!!!!!!!!!!!!!!!"

/-! ## Badger record store (hosts and HTTP capture log)

Keys are byte lists (each element below 256 by construction); ULIDs are
their 16 raw bytes.  The badger store is modelled as an association list of
entries kept sorted by the bytewise key order badger iterates in; gob
encoding is modelled by the StoredVal payload.  Go strings convert to keys
through their UTF-8 bytes (strBytes above). -/

def indexKeyMask : Nat := 0x0F
def hostKeyPfx : Nat := 0x00
def hostHostnameIdx : Nat := 0x01
def httpLogKeyPfx : Nat := 0x10
def httpLogHostIDIdx : Nat := 0x11

/-- entryKey: one byte packing the 4-bit entity marker with the masked 4-bit
index selector, followed by the index value bytes. -/
def entryKey (pfx idxKey : Nat) (idxValue : List Nat) : List Nat :=
  Nat.lor (Nat.land idxKey indexKeyMask) pfx :: idxValue

structure Host where
  id : List Nat
  hostname : String
deriving DecidableEq, Repr

/-- The gob-encoded httpLogEntry struct: id, owning host id, and the raw
dumped request and response bytes. -/
structure HTTPLogEntryRec where
  id : List Nat
  hostID : List Nat
  rawRequest : List Nat
  rawResponse : List Nat
deriving DecidableEq, Repr

inductive StoredVal where
  | hostVal (h : Host)
  | logVal (e : HTTPLogEntryRec)
  | emptyVal
deriving DecidableEq, Repr

/-- Bytewise key order (badger iterates keys in this order). -/
def lexLtB : List Nat → List Nat → Bool
  | [], [] => false
  | [], _ :: _ => true
  | _ :: _, [] => false
  | a :: as, b :: bs => if a < b then true else if b < a then false else lexLtB as bs

/-- The store: entries sorted by key, one entry per key. -/
abbrev DB := List (List Nat × StoredVal)

/-- txn.SetEntry: insert or overwrite, preserving key order. -/
def dbSet : DB → List Nat → StoredVal → DB
  | [], k, v => [(k, v)]
  | (k0, v0) :: rest, k, v =>
    if lexLtB k k0 then (k, v) :: (k0, v0) :: rest
    else if k = k0 then (k, v) :: rest
    else (k0, v0) :: dbSet rest k v

/-- txn.Get: the value stored under a key. -/
def dbGet (db : DB) (k : List Nat) : Option StoredVal :=
  (db.find? (fun kv => kv.1 = k)).map (fun kv => kv.2)

def applyWrites (db : DB) (ws : List (List Nat × StoredVal)) : DB :=
  ws.foldl (fun d kv => dbSet d kv.1 kv.2) db

/-- Iterator Seek(p) / ValidForPrefix(p): the contiguous run of entries
whose keys extend p, in key order — on the sorted entry list this is the
filter by key prefix. -/
def dbScanPfx (db : DB) (p : List Nat) : DB :=
  db.filter (fun kv => p.isPrefixOf kv.1)

def hostPrimKey (h : Host) : List Nat :=
  entryKey hostKeyPfx 0 h.id

def hostIdxKey (h : Host) : List Nat :=
  entryKey hostKeyPfx hostHostnameIdx (strBytes (h.hostname ++ "#") ++ h.id)

/-- The badger entries StoreHosts writes for a batch, in write order: for
every host its primary record then its hostname index entry (no value). -/
def hostWrites (hs : List Host) : List (List Nat × StoredVal) :=
  hs.flatMap (fun h => [(hostPrimKey h, .hostVal h), (hostIdxKey h, .emptyVal)])

/-- Database.StoreHosts: reject an empty batch, else write all primary and
index entries in one transaction. -/
def StoreHosts (db : DB) (hs : List Host) : Except String DB :=
  if hs.length = 0 then .error "badger: hosts cannot be 0 length"
  else .ok (applyWrites db (hostWrites hs))

inductive DbErr where
  | hostNotFound
  | keyNotFound
  | decodeFailed
deriving DecidableEq, Repr

/-- Database.FindHostByID: point lookup of the primary record;
badger.ErrKeyNotFound maps to the distinct host-not-found error. -/
def FindHostByID (db : DB) (hostID : List Nat) : Except DbErr Host :=
  match dbGet db (entryKey hostKeyPfx 0 hostID) with
  | none => .error .hostNotFound
  | some (.hostVal h) => .ok h
  | some _ => .error .decodeFailed

/-- bytes.Index for a single byte: the index of its first occurrence. -/
def bytesIndexGo (b : Nat) : List Nat → Option Nat
  | [] => none
  | x :: rest => if x = b then some 0 else (bytesIndexGo b rest).map (· + 1)

/-- The host ID is the part of the index item key after the first byte 35
(the separator written as hostname + number sign); bytes.Index yields -1
when absent, making the slice start at 0. -/
def hostIDFromIndexKey (k : List Nat) : List Nat :=
  match bytesIndexGo 35 k with
  | some i => k.drop (i + 1)
  | none => k

/-- Database.FindHostByHostname: prefix-scan the hostname index, take the
first hit, extract the id after the separator, and resolve the primary
record; both a missing index entry and a missing primary record surface as
host-not-found. -/
def FindHostByHostname (db : DB) (hostname : String) : Except DbErr Host :=
  match (dbScanPfx db (entryKey hostKeyPfx hostHostnameIdx
      (strBytes (hostname ++ "#")))).head? with
  | none => .error .hostNotFound
  | some kv =>
    match dbGet db (entryKey hostKeyPfx 0 (hostIDFromIndexKey kv.1)) with
    | none => .error .hostNotFound
    | some (.hostVal h) => .ok h
    | some _ => .error .decodeFailed

def logPrimKey (e : HTTPLogEntryRec) : List Nat :=
  entryKey httpLogKeyPfx 0 e.id

def logIdxKey (e : HTTPLogEntryRec) : List Nat :=
  entryKey httpLogKeyPfx httpLogHostIDIdx (e.hostID ++ e.id)

/-- Database.StoreHTTPLogEntry: one transaction writing the gob-encoded
entry under its primary key and a valueless host-id index entry
(DumpRequest / DumpResponse are modelled by the raw byte fields). -/
def StoreHTTPLogEntryDB (db : DB) (e : HTTPLogEntryRec) : DB :=
  applyWrites db [(logPrimKey e, .logVal e), (logIdxKey e, .emptyVal)]

/-- Resolution of one host-id index hit inside ListHTTPLogEntries: the entry
id starts after the first index byte and the 16-byte host id (k[17:]); the
primary record is fetched and gob-decoded. -/
def decodeLogAt (db : DB) (k : List Nat) : Except DbErr HTTPLogEntryRec :=
  match dbGet db (entryKey httpLogKeyPfx 0 (k.drop 17)) with
  | none => .error .keyNotFound
  | some (.logVal e) => .ok e
  | some _ => .error .decodeFailed

def collectEntries (db : DB) : List (List Nat × StoredVal) →
    Except DbErr (List HTTPLogEntryRec)
  | [] => .ok []
  | kv :: rest =>
    match decodeLogAt db kv.1 with
    | .error e => .error e
    | .ok entry =>
      match collectEntries db rest with
      | .error e => .error e
      | .ok es => .ok (entry :: es)

/-- Database.ListHTTPLogEntries: for each requested host id in caller
order, prefix-scan the host-id index and resolve every hit to its decoded
primary record, concatenating the per-host groups. -/
def ListHTTPLogEntries (db : DB) : List (List Nat) →
    Except DbErr (List HTTPLogEntryRec)
  | [] => .ok []
  | hid :: rest =>
    match collectEntries db
        (dbScanPfx db (entryKey httpLogKeyPfx httpLogHostIDIdx hid)) with
    | .error e => .error e
    | .ok es =>
      match ListHTTPLogEntries db rest with
      | .error e => .error e
      | .ok more => .ok (es ++ more)

/-! ## Host lifecycle service (pkg hosts) -/

/-- The zero value of the Host struct: hosts := make([]Host, amount) fills
the batch slice with these before any host is generated. -/
def zeroHost : Host :=
  ⟨List.replicate 16 0, ""⟩

/-- One iteration's draws from the entropy sources: the two-word petname
slug, the hex encoding of the 4 random bytes, and the 16 ULID bytes. -/
structure GenData where
  slug : String
  randHex : String
  ulid : List Nat
deriving DecidableEq, Repr

/-- The host built in one CreateHosts iteration:
fmt.Sprintf of slug-randhex.baseHostname plus the fresh ULID. -/
def mkHost (baseHostname : String) (g : GenData) : Host :=
  ⟨g.ulid, g.slug ++ "-" ++ g.randHex ++ "." ++ baseHostname⟩

/-- The CreateHosts loop: at iteration i the generated host replaces the
zero value at slice position i, and the whole batch slice — generated
prefix and zero-valued suffix alike — is passed to StoreHosts.  fuel is the
number of iterations still to run; an exhausted generator stream models a
rand.Read failure, which aborts with an error like the Go code. -/
def CreateHostsGo (baseHostname : String) :
    List Host → DB → Nat → Nat → List GenData → Except String (List Host × DB)
  | arr, db, _, 0, _ => .ok (arr, db)
  | _, _, _, _ + 1, [] => .error "hosts: failed to generate random bytes"
  | arr, db, i, fuel + 1, g :: rest =>
    let arr2 := arr.set i (mkHost baseHostname g)
    match StoreHosts db arr2 with
    | .error e => .error e
    | .ok db2 => CreateHostsGo baseHostname arr2 db2 (i + 1) fuel rest

/-- Service CreateHosts: pre-allocate the batch slice with zero-valued
hosts, then run the per-host loop. -/
def CreateHosts (baseHostname : String) (db : DB) (amount : Nat)
    (gens : List GenData) : Except String (List Host × DB) :=
  CreateHostsGo baseHostname (List.replicate amount zeroHost) db 0 amount gens

/-- Service StoreHTTPLogEntry: resolve the request's target hostname to a
host (the wrapping with %w preserves errors.Is on the not-found error),
then persist the capture entry keyed to the resolved host.  newID is the
fresh ULID minted for the entry. -/
def StoreHTTPLogEntrySvc (db : DB) (reqHost : String) (newID : List Nat)
    (rawReq rawResp : List Nat) : Except DbErr DB :=
  match FindHostByHostname db reqHost with
  | .error e => .error e
  | .ok host => .ok (StoreHTTPLogEntryDB db ⟨newID, host.id, rawReq, rawResp⟩)

/-- The capture endpoint (CaptureRequest of pkg/http/handler.go): a
host-not-found failure from the service becomes a 404 response, any other
failure a 500, success a 200 OK; the returned store is the state after the
call. -/
def CaptureRequest (db : DB) (reqHost : String) (newID : List Nat)
    (rawReq rawResp : List Nat) : Nat × DB :=
  match StoreHTTPLogEntrySvc db reqHost newID rawReq rawResp with
  | .error .hostNotFound => (404, db)
  | .error _ => (500, db)
  | .ok db2 => (200, db2)

def exceptIsOk (e : Except String (List Host × DB)) : Bool :=
  match e with
  | .ok _ => true
  | .error _ => false

/-! ## Verification-side helpers for the record store -/

/-- The last value a write batch assigns to a key, if any. -/
def lookupLast : List (List Nat × StoredVal) → List Nat → Option StoredVal
  | [], _ => none
  | kv :: rest, k =>
    match lookupLast rest k with
    | some v => some v
    | none => if kv.1 = k then some kv.2 else none

/-- The store's entries are strictly ascending in key order. -/
def DBSorted (db : DB) : Prop :=
  db.Pairwise (fun a b => lexLtB a.1 b.1 = true)

/-- The batch slice as it stands after k CreateHosts iterations: the first k
slots generated, the rest still the pre-allocated zero value. -/
def createHostsState (baseHostname : String) (n : Nat) (gens : List GenData)
    (k : Nat) : List Host :=
  (gens.take k).map (mkHost baseHostname) ++ List.replicate (n - k) zeroHost

/-- The badger writes issued by f consecutive CreateHosts iterations
starting after iteration k: each iteration stores the whole batch slice as
it stands then. -/
def segWrites (baseHostname : String) (n : Nat) (gens : List GenData) :
    Nat → Nat → List (List Nat × StoredVal)
  | _, 0 => []
  | k, f + 1 =>
    hostWrites (createHostsState baseHostname n gens (k + 1)) ++
      segWrites baseHostname n gens (k + 1) f

/-- Well-formedness of the capture-log index: every entry whose key starts
with the host-id index byte is a full index key (1 + 16 + 16 bytes) whose
primary record exists and decodes to an entry owned by the indexed host id
and bearing the indexed entry id.  StoreHTTPLogEntry writes primary and
index together in one transaction, which is what establishes this. -/
def WFCaptureIdx (db : DB) : Prop :=
  ∀ kv ∈ db, kv.1.head? = some 17 →
    kv.1.length = 33 ∧
    ∃ e : HTTPLogEntryRec,
      dbGet db (entryKey httpLogKeyPfx 0 (kv.1.drop 17)) = some (.logVal e) ∧
      e.hostID = (kv.1.drop 1).take 16 ∧ e.id = kv.1.drop 17

/-- The decoded entries of one host id's index scan, in index order. -/
def scanGroup (db : DB) (hid : List Nat) : List HTTPLogEntryRec :=
  (dbScanPfx db (entryKey httpLogKeyPfx httpLogHostIDIdx hid)).filterMap
    (fun kv =>
      match decodeLogAt db kv.1 with
      | .ok e => some e
      | .error _ => none)

/-! Concrete data for the evaluations below. -/

def defaultGen : GenData := ⟨"", "", []⟩

def cexBase : String := "oast.example"

def cexGens : List GenData :=
  [⟨"alpha", "0a0b0c0d", 1 :: List.replicate 15 0⟩,
   ⟨"bravo", "11223344", 2 :: List.replicate 15 0⟩]

/-- One CreateHosts(2) iteration from an empty store. -/
def cexRun1 : Except String (List Host × DB) :=
  CreateHostsGo cexBase (List.replicate 2 zeroHost) [] 0 1 cexGens

def cexArr1 : List Host :=
  match cexRun1 with
  | .ok x => x.1
  | .error _ => []

def cexDb1 : DB :=
  match cexRun1 with
  | .ok x => x.2
  | .error _ => []

def ulidA : List Nat := 10 :: List.replicate 15 3
def ulidB : List Nat := 11 :: List.replicate 15 4
def ulidE1 : List Nat := 12 :: List.replicate 15 5
def ulidE2 : List Nat := 13 :: List.replicate 15 6
def ulidE3 : List Nat := 14 :: List.replicate 15 7

def entryE1 : HTTPLogEntryRec := ⟨ulidE1, ulidA, [71], [72]⟩
def entryE2 : HTTPLogEntryRec := ⟨ulidE2, ulidA, [73], [74]⟩
def entryE3 : HTTPLogEntryRec := ⟨ulidE3, ulidB, [75], [76]⟩

/-- A store holding capture entries of two hosts, built through
StoreHTTPLogEntryDB from the empty store. -/
def capDb : DB :=
  StoreHTTPLogEntryDB (StoreHTTPLogEntryDB (StoreHTTPLogEntryDB [] entryE1)
    entryE2) entryE3

/-! ## Theorems -/

theorem appendLoop_eq_spec (newRecs : List LibdnsRecord) :
    ∀ recs : List LibdnsRecord,
      appendLoop recs newRecs =
        (recs ++ specAppendCreated recs newRecs, specAppendCreated recs newRecs) := by
  induction newRecs with
  | nil => intro recs; simp [appendLoop, specAppendCreated]
  | cons cand rest ih =>
    intro recs
    by_cases h : recs.any (fun rec => recMatches cand rec) = true
    · simp [appendLoop, specAppendCreated, h, ih recs]
    · simp only [appendLoop, specAppendCreated, h, if_false, Bool.not_eq_true] at *
      simp [h, ih (recs ++ [cand])]

/-- C1.  DeleteRecords evaluated at a zone holding two records, with two
delete candidates matching neither (all names differ): the persisted set
keeps each unrelated record, but each appears twice — once per candidate —
because the inner filter loop re-traverses the full original record list for
every candidate.  The spec's own design notes flag this as a latent
duplication bug, so the claim reflects the intent and the code diverges. -/
theorem deleteRecords_duplication_bug :
    DeleteRecords (.ok [recA, recB]) [recD1, recD2] =
      .ok [] [recA, recB, recA, recB] ∧
    recMatches recD1 recA = false ∧ recMatches recD1 recB = false ∧
    recMatches recD2 recA = false ∧ recMatches recD2 recB = false := by
  decide

/-- C2.  AppendRecords is idempotent and dedupes on conflict.  Scenario
part: appending r to a zone with no zonefile creates r and persists [r];
re-appending any rp that shares r's (non-empty) id or shares both its name
and type creates nothing and leaves the stored set at [r], which GetRecords
returns and in which exactly one record matches rp.  General part: for every
loaded record set, the candidates actually appended are exactly those the
spec's evolving dedupe rule selects, the persisted set is the loaded set
followed by them, and they are exactly what the call returns. -/
theorem appendRecords_idempotent_dedupe
    (r rp : LibdnsRecord)
    (hm : (rp.id ≠ "" ∧ rp.id = r.id) ∨ (rp.name = r.name ∧ rp.rtype = r.rtype)) :
    AppendRecords .errNotExist [r] = .ok [r] [r] ∧
    AppendRecords (.ok [r]) [rp] = .ok [] [r] ∧
    GetRecords (.ok [r]) = .ok [r] ∧
    ([r].countP (fun rec => recMatches rp rec)) = 1 ∧
    (∀ recs newRecs : List LibdnsRecord,
      AppendRecords (.ok recs) newRecs =
        .ok (specAppendCreated recs newRecs) (recs ++ specAppendCreated recs newRecs)) := by
  have hmatch : recMatches rp r = true := by
    rcases hm with ⟨h1, h2⟩ | ⟨h1, h2⟩
    · have h3 : r.id ≠ "" := h2 ▸ h1
      simp [recMatches, h1, h2, h3]
    · simp [recMatches, h1, h2]
  refine ⟨?_, ?_, rfl, ?_, ?_⟩
  · simp [AppendRecords, appendLoop, recMatches]
  · simp [AppendRecords, appendLoop, List.any, hmatch]
  · simp [List.countP, List.countP.go, hmatch]
  · intro recs newRecs
    simp [AppendRecords, appendLoop_eq_spec]

/-- Witness for C2's theorem at concrete records sharing name and type. -/
theorem appendRecords_idempotent_dedupe_witness :
    AppendRecords .errNotExist [recA] = .ok [recA] [recA] ∧
    AppendRecords (.ok [recA]) [⟨"", "a", "TXT", "v9"⟩] = .ok [] [recA] := by
  have h := appendRecords_idempotent_dedupe recA ⟨"", "a", "TXT", "v9"⟩
    (Or.inr ⟨rfl, rfl⟩)
  exact ⟨h.1, h.2.1⟩

/-- C10.  Whenever loading the zonefile errors — including the not-exist
error for a zone never written — DeleteRecords panics, because the
errors.As target is a nil typed pointer; AppendRecords and GetRecords absorb
the not-exist error instead (empty set), and only AppendRecords' genuine
load errors are returned as errors. -/
theorem deleteRecords_nil_target_panics :
    (∀ deleteRecs : List LibdnsRecord,
      DeleteRecords .errNotExist deleteRecs = .panic ∧
      DeleteRecords .errOther deleteRecs = .panic) ∧
    (∀ newRecs : List LibdnsRecord,
      AppendRecords .errNotExist newRecs =
        .ok (specAppendCreated [] newRecs) (specAppendCreated [] newRecs) ∧
      AppendRecords .errOther newRecs = .err) ∧
    GetRecords .errNotExist = .ok [] := by
  refine ⟨fun _ => ⟨rfl, rfl⟩, fun newRecs => ⟨?_, rfl⟩, rfl⟩
  simp [AppendRecords, appendLoop_eq_spec]

theorem mem_of_lookup_typeTable {t : List (String × Nat)} {s : String} {v : Nat}
    (h : t.lookup s = some v) : (s, v) ∈ t := by
  induction t with
  | nil => simp [List.lookup] at h
  | cons p rest ih =>
    rcases p with ⟨k, b⟩
    by_cases hk : s = k
    · subst hk
      simp [List.lookup] at h
      simp [h]
    · have hbeq : (s == k) = false := by simp [hk]
      simp only [List.lookup, hbeq] at h
      exact List.mem_cons_of_mem _ (ih h)

theorem typeTable_16_only_txt : ∀ p ∈ typeTable, p.2 = 16 → p.1 = "TXT" := by
  decide

theorem stringToType_txt : stringToType "TXT" = some 16 := by decide

theorem stringToType_ne_16 {s : String} (hs : s ≠ "TXT") : stringToType s ≠ some 16 := by
  intro h
  exact hs (typeTable_16_only_txt _ (mem_of_lookup_typeTable h) rfl)

theorem buildAnswers_clean (name : String) :
    ∀ (recs : List LibdnsRecord) (acc : List RR),
      (∀ r ∈ recs, r.rtype = "TXT" ∨ stringToType r.rtype = none) →
      buildAnswers name recs acc = acc ++ txtAnswers name recs := by
  intro recs
  induction recs with
  | nil => intro acc _; simp [buildAnswers, txtAnswers]
  | cons r rest ih =>
    intro acc h
    rcases h r (List.mem_cons_self r rest) with hr | hr
    · have hst : stringToType r.rtype = some 16 := by rw [hr]; exact stringToType_txt
      have hrec := ih (acc ++ [RR.txtRR (absoluteName r.name name) 3600 [r.value]])
        (fun x hx => h x (List.mem_cons_of_mem _ hx))
      simp [buildAnswers, hst, MessageFromRecord, txtAnswers, hr, hrec,
        stringToType_txt]
    · have hsome : (stringToType r.rtype).isSome = false := by simp [hr]
      have hrt : r.rtype ≠ "TXT" := by
        intro he; rw [he, stringToType_txt] at hr; exact Option.noConfusion hr
      have hrec := ih acc (fun x hx => h x (List.mem_cons_of_mem _ hx))
      simp [buildAnswers, hsome, txtAnswers, hrt, hrec]

theorem buildAnswers_abort (name : String) (bad : LibdnsRecord)
    (rest : List LibdnsRecord)
    (hbadSome : (stringToType bad.rtype).isSome = true)
    (hbadTXT : bad.rtype ≠ "TXT") :
    ∀ (pre : List LibdnsRecord) (acc : List RR),
      (∀ r ∈ pre, r.rtype = "TXT" ∨ stringToType r.rtype = none) →
      buildAnswers name (pre ++ bad :: rest) acc = acc ++ txtAnswers name pre := by
  have herr : ∃ msg, MessageFromRecord name bad = .error msg := by
    cases hst : stringToType bad.rtype with
    | none => rw [hst] at hbadSome; simp at hbadSome
    | some t =>
      have ht : t ≠ 16 := by
        intro h16
        subst h16
        exact hbadTXT (typeTable_16_only_txt _ (mem_of_lookup_typeTable hst) rfl)
      exact ⟨"dns: unsupported record type " ++ bad.rtype,
        by simp [MessageFromRecord, hst, ht]⟩
  intro pre
  induction pre with
  | nil =>
    intro acc _
    rcases herr with ⟨msg, hmsg⟩
    simp [buildAnswers, hbadSome, hmsg, txtAnswers]
  | cons r pre ih =>
    intro acc h
    rcases h r (List.mem_cons_self r pre) with hr | hr
    · have hst : stringToType r.rtype = some 16 := by rw [hr]; exact stringToType_txt
      have hrec := ih (acc ++ [RR.txtRR (absoluteName r.name name) 3600 [r.value]])
        (fun x hx => h x (List.mem_cons_of_mem _ hx))
      simp [buildAnswers, hst, MessageFromRecord, txtAnswers, hr, hrec,
        stringToType_txt]
    · have hsome : (stringToType r.rtype).isSome = false := by simp [hr]
      have hrt : r.rtype ≠ "TXT" := by
        intro he; rw [he, stringToType_txt] at hr; exact Option.noConfusion hr
      have hrec := ih acc (fun x hx => h x (List.mem_cons_of_mem _ hx))
      simp [buildAnswers, hsome, txtAnswers, hrt, hrec]

/-- C8 (amended).  For an in-zone query of a type other than SOA and NS,
stored records are processed in order: TXT records are converted (value
verbatim, fixed 3600-second TTL) and appended, records of unrecognized type
are silently skipped, but a stored record whose type is recognized yet not
TXT makes the handler return at once, so the reply carries only the answers
accumulated before it (the original claim, that every recognized record is
converted and appended, fails on such a record). -/
theorem serveDNS_txt_conversion (soaHostname name : String) (qtype : Nat)
    (storage : String → LoadResult) (recs : List LibdnsRecord)
    (hin : isSubDomain (fqdn soaHostname) (fqdn name) = true)
    (hq6 : qtype ≠ 6) (hq2 : qtype ≠ 2)
    (hload : storage (storageKey name) = .ok recs) :
    ((∀ r ∈ recs, r.rtype = "TXT" ∨ stringToType r.rtype = none) →
      ServeDNS soaHostname storage [⟨name, qtype⟩] =
        .reply true (txtAnswers name recs)) ∧
    (∀ (pre : List LibdnsRecord) (bad : LibdnsRecord) (rest : List LibdnsRecord),
      recs = pre ++ bad :: rest →
      (∀ r ∈ pre, r.rtype = "TXT" ∨ stringToType r.rtype = none) →
      (stringToType bad.rtype).isSome = true → bad.rtype ≠ "TXT" →
      ServeDNS soaHostname storage [⟨name, qtype⟩] =
        .reply true (txtAnswers name pre)) := by
  constructor
  · intro hclean
    simp [ServeDNS, hin, hq6, hq2, hload, GetRecords,
      buildAnswers_clean name recs [] hclean]
  · intro pre bad rest hsplit hpre hbadSome hbadTXT
    subst hsplit
    simp [ServeDNS, hin, hq6, hq2, hload, GetRecords,
      buildAnswers_abort name bad rest hbadSome hbadTXT pre [] hpre]

/-- Witness for C8's theorem: a TXT query over a zone holding one TXT record
answers with its value verbatim at TTL 3600. -/
theorem serveDNS_txt_conversion_witness :
    ServeDNS "example.com." sampleStorageTXT [⟨"x.example.com.", 16⟩] =
      .reply true [.txtRR "x.x.example.com." 3600 ["hello"]] := by
  have h := (serveDNS_txt_conversion "example.com." "x.example.com." 16
    sampleStorageTXT [⟨"", "x", "TXT", "hello"⟩]
    (by decide) (by decide) (by decide) (by decide)).1 (by decide)
  rw [h]; decide

/-- C8 (counterexample).  With a stored A record (recognized by
dns.StringToType) in front of a stored TXT record, the reply's answer
section is empty: the A record is not converted and the TXT record behind it
is dropped, although its conversion succeeds in isolation. -/
theorem serveDNS_recognized_type_truncates :
    ServeDNS "example.com." sampleStorageAthenTXT [⟨"x.example.com.", 16⟩] =
      .reply true [] ∧
    (stringToType "A").isSome = true ∧
    MessageFromRecord "x.example.com." ⟨"", "x", "TXT", "hello"⟩ =
      .ok (.txtRR "x.x.example.com." 3600 ["hello"]) := by
  refine ⟨by decide, by decide, ?_⟩
  rfl

/-- C7 (amended).  For every DNS query whose first question's name is not a
sub-domain of (or equal to) the configured authoritative base hostname, the
responder sends a reply with an empty answer section and the authoritative
flag not set, whatever the storage holds; only the first question is ever
inspected. -/
theorem serveDNS_out_of_zone (soaHostname : String) (storage : String → LoadResult)
    (q0 : Question) (rest : List Question)
    (h : isSubDomain (fqdn soaHostname) (fqdn q0.name) = false) :
    ServeDNS soaHostname storage (q0 :: rest) = .reply false [] := by
  simp [ServeDNS, h]

/-- Witness for C7's theorem at a concrete out-of-zone query. -/
theorem serveDNS_out_of_zone_witness :
    ServeDNS "example.com." sampleStorageTXT [⟨"other.com.", 16⟩] =
      .reply false [] :=
  serveDNS_out_of_zone "example.com." sampleStorageTXT ⟨"other.com.", 16⟩ []
    (by decide)

/-- C7 (counterexample).  A query with two questions, the first in-zone and
the second out-of-zone, has at least one question whose name is outside the
base hostname, yet the responder answers authoritatively with the SOA answer
for the first question — only the first question is consulted. -/
theorem serveDNS_later_question_ignored :
    isSubDomain (fqdn "base.example.") (fqdn "other.com.") = false ∧
    ServeDNS "base.example." (fun _ => .errNotExist)
        [⟨"base.example.", 6⟩, ⟨"other.com.", 16⟩] =
      .reply true [.soaRR "base.example." "ns1.base.example."
        "hostmaster.base.example." 0 1 86400 7200 3600000 3600] := by
  decide

theorem parseHostIDsGo_ok_of_all_parse :
    ∀ (l : List String) (acc : List (List Nat)),
      (∀ s ∈ l, (ulidParse s).isSome = true) →
      ∃ ids, parseHostIDsGo l acc = .ok ids := by
  intro l
  induction l with
  | nil => intro acc _; exact ⟨acc, rfl⟩
  | cons rawID rest ih =>
    intro acc h
    have hs := h rawID (List.mem_cons_self rawID rest)
    cases hp : ulidParse rawID with
    | none => rw [hp] at hs; simp at hs
    | some v =>
      rcases ih (insertDedup acc v) (fun s hsm => h s (List.mem_cons_of_mem _ hsm))
        with ⟨ids, hids⟩
      exact ⟨ids, by simp [parseHostIDsGo, hp, hids]⟩

theorem parseHostIDsGo_all_parse_of_ok :
    ∀ (l : List String) (acc ids : List (List Nat)),
      parseHostIDsGo l acc = .ok ids →
      ∀ s ∈ l, (ulidParse s).isSome = true := by
  intro l
  induction l with
  | nil => intro acc ids _ s hs; simp at hs
  | cons rawID rest ih =>
    intro acc ids h s hs
    cases hp : ulidParse rawID with
    | none => simp [parseHostIDsGo, hp] at h
    | some v =>
      rw [List.mem_cons] at hs
      rcases hs with hs | hs
      · subst hs; simp [hp]
      · exact ih (insertDedup acc v) ids (by simpa [parseHostIDsGo, hp] using h) s hs

/-- C9 (amended).  A list-capture-entries request is accepted exactly when
the caller supplies between 1 and 20 raw hostId parameters and every one of
them passes the two checks the non-strict ulid.Parse performs — exactly 26
bytes, first byte at most the character 7 — with the count bound applied to
the raw parameter list before deduplication.  Zero ids, more than 20 raw
ids, or an id failing the length or overflow check yield a validation
failure, and then the handler's response is a 400 error computed without
consulting the storage-backed service at all.  A 26-byte id made of bytes
outside the base32 alphabet is accepted (it decodes to an undefined ULID),
since character validation belongs to ParseStrict, which the handler does
not call. -/
theorem parseHostIDs_validation (rawIDs : List String) :
    ((∃ ids, parseHostIDs rawIDs = Except.ok ids) ↔
      (1 ≤ rawIDs.length ∧ rawIDs.length ≤ 20 ∧
        ∀ s ∈ rawIDs, (ulidParse s).isSome = true)) ∧
    (∀ e, parseHostIDs rawIDs = Except.error e →
      ∀ (α : Type) (b1 b2 : List (List Nat) → Except Unit α),
        ListHTTPLogEntriesHandler b1 rawIDs = (400, none) ∧
        ListHTTPLogEntriesHandler b2 rawIDs = ListHTTPLogEntriesHandler b1 rawIDs) := by
  constructor
  · constructor
    · rintro ⟨ids, hids⟩
      by_cases h0 : rawIDs.length = 0
      · simp [parseHostIDs, h0] at hids
      · by_cases h20 : 20 < rawIDs.length
        · simp [parseHostIDs, h0, h20] at hids
        · refine ⟨Nat.one_le_iff_ne_zero.mpr h0, Nat.le_of_not_lt h20, ?_⟩
          exact parseHostIDsGo_all_parse_of_ok rawIDs [] ids
            (by simpa [parseHostIDs, h0, h20] using hids)
    · rintro ⟨h1, h20, hall⟩
      have h0 : ¬rawIDs.length = 0 := by omega
      have h20x : ¬20 < rawIDs.length := by omega
      rcases parseHostIDsGo_ok_of_all_parse rawIDs [] hall with ⟨ids, hids⟩
      exact ⟨ids, by simp [parseHostIDs, h0, h20x, hids]⟩
  · intro e he α b1 b2
    simp [ListHTTPLogEntriesHandler, he]

/-- Witness for C9's theorem: one valid ULID is accepted, a 26-byte id of
invalid characters is accepted as well (non-strict Parse does not validate
characters), and the empty parameter list is rejected with a 400
independent of the backend. -/
theorem parseHostIDs_validation_witness :
    (∃ ids, parseHostIDs [ulidSample] = Except.ok ids) ∧
    (∃ ids, parseHostIDs [ulidGarbage] = Except.ok ids) ∧
    ListHTTPLogEntriesHandler (fun _ => Except.ok 0) ([] : List String) =
      (400, none) := by
  refine ⟨?_, ?_, ?_⟩
  · exact (parseHostIDs_validation [ulidSample]).1.mpr (by decide)
  · exact (parseHostIDs_validation [ulidGarbage]).1.mpr (by decide)
  · exact ((parseHostIDs_validation ([] : List String)).2 .missingHostID rfl
      Nat (fun _ => Except.ok 0) (fun _ => Except.ok 0)).1

/-- C9 (counterexample).  Twenty-one copies of one valid ULID: every raw id
parses and the deduplicated set has exactly one element — the claim as
stated says such a request is accepted — yet parseHostIDs rejects it,
because the more-than-20 check runs on the raw parameter count before
deduplication. -/
theorem parseHostIDs_dedup_after_count_cex :
    (List.replicate 21 ulidSample).all (fun s => (ulidParse s).isSome) = true ∧
    (List.replicate 21 ulidSample).dedup = [ulidSample] ∧
    parseHostIDs (List.replicate 21 ulidSample) = .error .tooManyHostIDs := by
  refine ⟨by decide, by decide, rfl⟩

/-- C5.  When the inbound request's target hostname owns no stored host (its
hostname index scan is empty), the service's StoreHTTPLogEntry fails with
the distinct host-not-found condition and performs no write, and the capture
endpoint maps this to a 404 with the store unchanged, not a 500. -/
theorem storeHTTPLogEntry_unknown_host (db : DB) (reqHost : String)
    (newID rawReq rawResp : List Nat)
    (hnone : dbScanPfx db (entryKey hostKeyPfx hostHostnameIdx
      (strBytes (reqHost ++ "#"))) = []) :
    StoreHTTPLogEntrySvc db reqHost newID rawReq rawResp =
      .error .hostNotFound ∧
    CaptureRequest db reqHost newID rawReq rawResp = (404, db) := by
  have hfind : FindHostByHostname db reqHost = .error .hostNotFound := by
    simp [FindHostByHostname, hnone]
  exact ⟨by simp [StoreHTTPLogEntrySvc, hfind],
    by simp [CaptureRequest, StoreHTTPLogEntrySvc, hfind]⟩

/-- Witness for C5's theorem at the empty store. -/
theorem storeHTTPLogEntry_unknown_host_witness :
    StoreHTTPLogEntrySvc [] "foo.oast.example" ulidE1 [71] [72] =
      .error .hostNotFound ∧
    CaptureRequest [] "foo.oast.example" ulidE1 [71] [72] = (404, []) :=
  storeHTTPLogEntry_unknown_host [] "foo.oast.example" ulidE1 [71] [72] rfl

theorem strBytes_append (a b : String) : strBytes (a ++ b) = strBytes a ++ strBytes b := by
  simp [strBytes, String.data_append]

theorem lexLtB_irrefl : ∀ a : List Nat, lexLtB a a = false := by
  intro a
  induction a with
  | nil => rfl
  | cons x xs ih => simp [lexLtB, ih]

theorem lexLtB_cons_iff {x y : Nat} {xs ys : List Nat} :
    lexLtB (x :: xs) (y :: ys) = true ↔ x < y ∨ (x = y ∧ lexLtB xs ys = true) := by
  by_cases hxy : x < y
  · simp [lexLtB, hxy]
  · by_cases hyx : y < x
    · simp [lexLtB, hxy, hyx]
      omega
    · have hxyeq : x = y := by omega
      simp [lexLtB, hxy, hyx, hxyeq]

theorem lexLtB_trans : ∀ {a b c : List Nat},
    lexLtB a b = true → lexLtB b c = true → lexLtB a c = true := by
  intro a
  induction a with
  | nil =>
    intro b c hab hbc
    cases b with
    | nil => simp [lexLtB] at hab
    | cons y ys =>
      cases c with
      | nil => simp [lexLtB] at hbc
      | cons z zs => simp [lexLtB]
  | cons x xs ih =>
    intro b c hab hbc
    cases b with
    | nil => simp [lexLtB] at hab
    | cons y ys =>
      cases c with
      | nil => simp [lexLtB] at hbc
      | cons z zs =>
        rcases lexLtB_cons_iff.mp hab with h1 | ⟨h1, h1r⟩ <;>
          rcases lexLtB_cons_iff.mp hbc with h2 | ⟨h2, h2r⟩
        · exact lexLtB_cons_iff.mpr (Or.inl (Nat.lt_trans h1 h2))
        · exact lexLtB_cons_iff.mpr (Or.inl (h2 ▸ h1))
        · exact lexLtB_cons_iff.mpr (Or.inl (h1 ▸ h2))
        · exact lexLtB_cons_iff.mpr (Or.inr ⟨h1.trans h2, ih h1r h2r⟩)

theorem lexLtB_total : ∀ a b : List Nat,
    lexLtB a b = true ∨ a = b ∨ lexLtB b a = true := by
  intro a
  induction a with
  | nil =>
    intro b
    cases b with
    | nil => exact Or.inr (Or.inl rfl)
    | cons y ys => exact Or.inl (by simp [lexLtB])
  | cons x xs ih =>
    intro b
    cases b with
    | nil => exact Or.inr (Or.inr (by simp [lexLtB]))
    | cons y ys =>
      rcases Nat.lt_trichotomy x y with h | h | h
      · exact Or.inl (lexLtB_cons_iff.mpr (Or.inl h))
      · rcases ih ys with h2 | h2 | h2
        · exact Or.inl (lexLtB_cons_iff.mpr (Or.inr ⟨h, h2⟩))
        · exact Or.inr (Or.inl (by rw [h, h2]))
        · exact Or.inr (Or.inr (lexLtB_cons_iff.mpr (Or.inr ⟨h.symm, h2⟩)))
      · exact Or.inr (Or.inr (lexLtB_cons_iff.mpr (Or.inl h)))

theorem lexLtB_append_left : ∀ (x a b : List Nat),
    lexLtB (x ++ a) (x ++ b) = lexLtB a b := by
  intro x
  induction x with
  | nil => intro a b; rfl
  | cons c cs ih => intro a b; simp [lexLtB, ih]

theorem dbGet_cons (a : List Nat) (b : StoredVal) (l : DB) (k : List Nat) :
    dbGet ((a, b) :: l) k = if a = k then some b else dbGet l k := by
  by_cases h : a = k
  · simp [dbGet, List.find?_cons, h]
  · simp [dbGet, List.find?_cons, h]

theorem dbSet_cons_lt {k k0 : List Nat} {v v0 : StoredVal} {rest : DB}
    (h : lexLtB k k0 = true) :
    dbSet ((k0, v0) :: rest) k v = (k, v) :: (k0, v0) :: rest := by
  simp [dbSet, h]

theorem dbSet_cons_eq {k k0 : List Nat} {v v0 : StoredVal} {rest : DB}
    (h1 : ¬lexLtB k k0 = true) (h2 : k = k0) :
    dbSet ((k0, v0) :: rest) k v = (k, v) :: rest := by
  simp only [dbSet]
  rw [if_neg h1, if_pos h2]

theorem dbSet_cons_gt {k k0 : List Nat} {v v0 : StoredVal} {rest : DB}
    (h1 : ¬lexLtB k k0 = true) (h2 : ¬k = k0) :
    dbSet ((k0, v0) :: rest) k v = (k0, v0) :: dbSet rest k v := by
  simp only [dbSet]
  rw [if_neg h1, if_neg h2]

theorem dbGet_dbSet_self (k : List Nat) (v : StoredVal) :
    ∀ db : DB, dbGet (dbSet db k v) k = some v := by
  intro db
  induction db with
  | nil => simp [dbSet, dbGet_cons]
  | cons kv0 rest ih =>
    rcases kv0 with ⟨k0, v0⟩
    by_cases hlt : lexLtB k k0 = true
    · rw [dbSet_cons_lt hlt, dbGet_cons, if_pos rfl]
    · by_cases heq : k = k0
      · rw [dbSet_cons_eq hlt heq, dbGet_cons, if_pos rfl]
      · rw [dbSet_cons_gt hlt heq, dbGet_cons,
          if_neg (fun h => heq h.symm)]
        exact ih

theorem dbGet_dbSet_ne (k : List Nat) (v : StoredVal) (kp : List Nat)
    (hne : kp ≠ k) : ∀ db : DB, dbGet (dbSet db k v) kp = dbGet db kp := by
  have hkne : ¬(k = kp) := fun h => hne h.symm
  intro db
  induction db with
  | nil => simp [dbSet, dbGet_cons, hkne, dbGet]
  | cons kv0 rest ih =>
    rcases kv0 with ⟨k0, v0⟩
    by_cases hlt : lexLtB k k0 = true
    · rw [dbSet_cons_lt hlt, dbGet_cons, if_neg hkne]
    · by_cases heq : k = k0
      · rw [dbSet_cons_eq hlt heq, dbGet_cons, if_neg hkne, dbGet_cons,
          if_neg (heq ▸ hkne)]
      · rw [dbSet_cons_gt hlt heq, dbGet_cons, dbGet_cons, ih]

theorem dbSet_mem (k : List Nat) (v : StoredVal) :
    ∀ (db : DB) (y : List Nat × StoredVal), y ∈ dbSet db k v →
      y = (k, v) ∨ y ∈ db := by
  intro db
  induction db with
  | nil => intro y hy; simp [dbSet] at hy; exact Or.inl hy
  | cons kv0 rest ih =>
    intro y hy
    rcases kv0 with ⟨k0, v0⟩
    by_cases hlt : lexLtB k k0 = true
    · rw [dbSet_cons_lt hlt] at hy
      rcases List.mem_cons.mp hy with rfl | hy2
      · exact Or.inl rfl
      · exact Or.inr hy2
    · by_cases heq : k = k0
      · rw [dbSet_cons_eq hlt heq] at hy
        rcases List.mem_cons.mp hy with rfl | hy2
        · exact Or.inl rfl
        · exact Or.inr (List.mem_cons_of_mem _ hy2)
      · rw [dbSet_cons_gt hlt heq] at hy
        rcases List.mem_cons.mp hy with rfl | hy2
        · exact Or.inr (List.mem_cons_self _ _)
        · rcases ih y hy2 with h | h
          · exact Or.inl h
          · exact Or.inr (List.mem_cons_of_mem _ h)

theorem dbSet_sorted (k : List Nat) (v : StoredVal) :
    ∀ db : DB, DBSorted db → DBSorted (dbSet db k v) := by
  intro db
  induction db with
  | nil => intro _; simp [dbSet, DBSorted]
  | cons kv0 rest ih =>
    intro hs
    rcases kv0 with ⟨k0, v0⟩
    have hs1 : ∀ y ∈ rest, lexLtB k0 y.1 = true := fun y hy =>
      (List.pairwise_cons.mp hs).1 y hy
    have hs2 : DBSorted rest := (List.pairwise_cons.mp hs).2
    by_cases hlt : lexLtB k k0 = true
    · rw [dbSet_cons_lt hlt]
      refine List.pairwise_cons.mpr ⟨?_, hs⟩
      intro y hy
      rcases List.mem_cons.mp hy with rfl | hy2
      · exact hlt
      · exact lexLtB_trans hlt (hs1 y hy2)
    · by_cases heq : k = k0
      · rw [dbSet_cons_eq hlt heq]
        exact List.pairwise_cons.mpr
          ⟨fun y hy => by rw [heq]; exact hs1 y hy, hs2⟩
      · rw [dbSet_cons_gt hlt heq]
        refine List.pairwise_cons.mpr ⟨?_, ih hs2⟩
        intro y hy
        rcases dbSet_mem k v rest y hy with rfl | hy2
        · rcases lexLtB_total k k0 with h | h | h
          · exact absurd h hlt
          · exact absurd h heq
          · exact h
        · exact hs1 y hy2

theorem applyWrites_sorted (ws : List (List Nat × StoredVal)) :
    ∀ db : DB, DBSorted db → DBSorted (applyWrites db ws) := by
  induction ws with
  | nil => intro db h; exact h
  | cons kv rest ih =>
    intro db h
    exact ih (dbSet db kv.1 kv.2) (dbSet_sorted kv.1 kv.2 db h)

theorem applyWrites_append (db : DB) (a b : List (List Nat × StoredVal)) :
    applyWrites db (a ++ b) = applyWrites (applyWrites db a) b := by
  simp [applyWrites, List.foldl_append]

theorem lookupLast_eq_none {ws : List (List Nat × StoredVal)} {k : List Nat} :
    lookupLast ws k = none ↔ ∀ kv ∈ ws, kv.1 ≠ k := by
  induction ws with
  | nil => simp [lookupLast]
  | cons kv rest ih =>
    cases hr : lookupLast rest k with
    | some v =>
      simp only [lookupLast, hr]
      constructor
      · intro h; exact absurd h (by simp)
      · intro h
        exact absurd (ih.mpr (fun y hy => h y (List.mem_cons_of_mem _ hy)))
          (by simp [hr])
    | none =>
      by_cases hk : kv.1 = k
      · simp [lookupLast, hr, hk]
      · simp only [lookupLast, hr, hk, if_false]
        constructor
        · intro _ y hy
          rcases List.mem_cons.mp hy with rfl | hy2
          · exact hk
          · exact ih.mp hr y hy2
        · intro _; trivial

theorem lookupLast_eq_some_of_const
    {ws : List (List Nat × StoredVal)} {k : List Nat} {v : StoredVal}
    (hex : ∃ kv ∈ ws, kv.1 = k)
    (hall : ∀ kv ∈ ws, kv.1 = k → kv.2 = v) :
    lookupLast ws k = some v := by
  induction ws with
  | nil => simp at hex
  | cons kv rest ih =>
    cases hr : lookupLast rest k with
    | some w =>
      have hexr : ∃ kv2 ∈ rest, kv2.1 = k := by
        by_contra hc
        push_neg at hc
        exact absurd (lookupLast_eq_none.mpr hc) (by simp [hr])
      have := ih hexr (fun y hy hk => hall y (List.mem_cons_of_mem _ hy) hk)
      simp only [lookupLast, hr]
      rw [hr] at this
      exact this
    | none =>
      have hrnone : ∀ kv2 ∈ rest, kv2.1 ≠ k := lookupLast_eq_none.mp hr
      rcases hex with ⟨kv2, hkv2, hk2⟩
      rcases List.mem_cons.mp hkv2 with rfl | hmem
      · simp only [lookupLast, hr, hk2, if_true]
        exact congrArg some (hall kv2 (List.mem_cons_self _ _) hk2)
      · exact absurd hk2 (hrnone kv2 hmem)

theorem dbGet_applyWrites (ws : List (List Nat × StoredVal)) :
    ∀ (db : DB) (k : List Nat),
      dbGet (applyWrites db ws) k = (lookupLast ws k).or (dbGet db k) := by
  induction ws with
  | nil => intro db k; simp [applyWrites, lookupLast]
  | cons kv rest ih =>
    intro db k
    have hstep : applyWrites db (kv :: rest) = applyWrites (dbSet db kv.1 kv.2) rest := rfl
    rw [hstep, ih]
    by_cases hk : kv.1 = k
    · rw [hk, dbGet_dbSet_self]
      cases hr : lookupLast rest k with
      | some v => simp [lookupLast, hr]
      | none => simp [lookupLast, hr, hk]
    · rw [dbGet_dbSet_ne kv.1 kv.2 k (fun h => hk h.symm)]
      cases hr : lookupLast rest k with
      | some v => simp [lookupLast, hr]
      | none => simp [lookupLast, hr, hk]

theorem mem_of_dbGet {db : DB} {k : List Nat} {v : StoredVal}
    (h : dbGet db k = some v) : (k, v) ∈ db := by
  unfold dbGet at h
  cases hf : db.find? (fun kv => kv.1 = k) with
  | none => rw [hf] at h; simp at h
  | some kv0 =>
    rw [hf] at h
    simp at h
    have hm := List.mem_of_find?_eq_some hf
    have hp : kv0.1 = k := by
      have := List.find?_some hf
      exact of_decide_eq_true this
    have hkv : kv0 = (k, v) := by
      rcases kv0 with ⟨a, b⟩
      simp only at hp h
      rw [hp, h]
    rwa [hkv] at hm

theorem dbGet_isSome_of_mem :
    ∀ (db : DB) (kv : List Nat × StoredVal), kv ∈ db →
      ∃ v, dbGet db kv.1 = some v := by
  intro db
  induction db with
  | nil => intro kv h; simp at h
  | cons kv0 rest ih =>
    intro kv h
    by_cases he : kv0.1 = kv.1
    · exact ⟨kv0.2, by simp [dbGet, List.find?_cons_of_pos, he]⟩
    · rcases List.mem_cons.mp h with rfl | h2
      · exact absurd rfl he
      · rcases ih kv h2 with ⟨v, hv⟩
        refine ⟨v, ?_⟩
        unfold dbGet at hv ⊢
        rw [List.find?_cons_of_neg]
        · exact hv
        · simp [he]

theorem filter_single_sorted (p : List Nat × StoredVal → Bool) :
    ∀ db : DB, DBSorted db → ∀ x, x ∈ db → p x = true →
      (∀ kv ∈ db, p kv = true → kv.1 = x.1) → db.filter p = [x] := by
  intro db
  induction db with
  | nil => intro _ x hx; simp at hx
  | cons kv0 rest ih =>
    intro hs x hx hpx huni
    have hs1 : ∀ y ∈ rest, lexLtB kv0.1 y.1 = true := fun y hy =>
      (List.pairwise_cons.mp hs).1 y hy
    have hs2 : DBSorted rest := (List.pairwise_cons.mp hs).2
    rcases List.mem_cons.mp hx with rfl | hx2
    · have hnil : rest.filter p = [] := by
        rw [List.filter_eq_nil_iff]
        intro y hy hpy
        have hk := huni y (List.mem_cons_of_mem _ hy) hpy
        have hl := hs1 y hy
        rw [hk] at hl
        exact absurd hl (by simp [lexLtB_irrefl])
      simp [List.filter_cons_of_pos, hpx, hnil]
    · have hp0 : p kv0 = false := by
        cases hpc : p kv0 with
        | false => rfl
        | true =>
          have hk := huni kv0 (List.mem_cons_self _ _) hpc
          have hl := hs1 x hx2
          rw [hk] at hl
          exact absurd hl (by simp [lexLtB_irrefl])
      rw [List.filter_cons_of_neg (by simp [hp0])]
      exact ih hs2 x hx2 hpx
        (fun kv hkv hpkv => huni kv (List.mem_cons_of_mem _ hkv) hpkv)

theorem hostPrimKey_eq (h : Host) : hostPrimKey h = 0 :: h.id := rfl

theorem hostIdxKey_eq (h : Host) :
    hostIdxKey h = 1 :: (strBytes h.hostname ++ 35 :: h.id) := by
  have h1 : Nat.lor (Nat.land hostHostnameIdx indexKeyMask) hostKeyPfx = 1 := by decide
  have h2 : strBytes "#" = [35] := by decide
  simp [hostIdxKey, entryKey, h1, strBytes_append, h2]

theorem logPrimKey_eq (e : HTTPLogEntryRec) : logPrimKey e = 16 :: e.id := by
  have h1 : Nat.lor (Nat.land 0 indexKeyMask) httpLogKeyPfx = 16 := by decide
  simp [logPrimKey, entryKey, h1]

theorem logIdxKey_eq (e : HTTPLogEntryRec) :
    logIdxKey e = 17 :: (e.hostID ++ e.id) := by
  have h1 : Nat.lor (Nat.land httpLogHostIDIdx indexKeyMask) httpLogKeyPfx = 17 := by
    decide
  simp [logIdxKey, entryKey, h1]

theorem entryKey_log_scan (hid : List Nat) :
    entryKey httpLogKeyPfx httpLogHostIDIdx hid = 17 :: hid := by
  have h1 : Nat.lor (Nat.land httpLogHostIDIdx indexKeyMask) httpLogKeyPfx = 17 := by
    decide
  simp [entryKey, h1]

theorem entryKey_log_prim (eid : List Nat) :
    entryKey httpLogKeyPfx 0 eid = 16 :: eid := by
  have h1 : Nat.lor (Nat.land 0 indexKeyMask) httpLogKeyPfx = 16 := by decide
  simp [entryKey, h1]

theorem mkHost_hostname_bytes (b : String) (g : GenData) :
    strBytes (mkHost b g).hostname =
      strBytes g.slug ++ 45 :: (strBytes g.randHex ++ 46 :: strBytes b) := by
  have h1 : strBytes "-" = [45] := by decide
  have h2 : strBytes "." = [46] := by decide
  simp [mkHost, strBytes_append, h1, h2]

theorem mkHost_hostname_bytes_ne_nil (b : String) (g : GenData) :
    strBytes (mkHost b g).hostname ≠ [] := by
  rw [mkHost_hostname_bytes]
  simp

theorem sep_prefix_eq : ∀ (bj bi idb : List Nat), 35 ∉ bj → 35 ∉ bi →
    (bj ++ [35]) <+: (bi ++ 35 :: idb) → bj = bi := by
  intro bj
  induction bj with
  | nil =>
    intro bi idb _ hbi hp
    cases bi with
    | nil => rfl
    | cons x bi2 =>
      rw [List.nil_append] at hp
      have h35 := (List.cons_prefix_cons.mp hp).1
      have hmem : (35 : Nat) ∈ x :: bi2 := by
        rw [h35]; exact List.mem_cons_self x bi2
      exact absurd hmem hbi
  | cons a bj2 ih =>
    intro bi idb hbj hbi hp
    cases bi with
    | nil =>
      rw [List.nil_append, List.cons_append] at hp
      have ha := (List.cons_prefix_cons.mp hp).1
      have hmem : (35 : Nat) ∈ a :: bj2 := by
        rw [← ha]; exact List.mem_cons_self a bj2
      exact absurd hmem hbj
    | cons x bi2 =>
      rw [List.cons_append, List.cons_append] at hp
      have h1 := (List.cons_prefix_cons.mp hp).1
      have h2 := (List.cons_prefix_cons.mp hp).2
      have := ih bi2 idb (fun hc => hbj (List.mem_cons_of_mem _ hc))
        (fun hc => hbi (List.mem_cons_of_mem _ hc)) h2
      rw [h1, this]

theorem bytesIndexGo_append_sep (idb : List Nat) : ∀ B : List Nat, 35 ∉ B →
    bytesIndexGo 35 (B ++ 35 :: idb) = some B.length := by
  intro B
  induction B with
  | nil => intro _; simp [bytesIndexGo]
  | cons x B2 ih =>
    intro h
    have hx : ¬(x = 35) := fun hc => h (by simp [hc])
    have ht : 35 ∉ B2 := fun hc => h (List.mem_cons_of_mem _ hc)
    simp [bytesIndexGo, hx, ih ht]

theorem drop_len_succ : ∀ (B : List Nat) (x : Nat) (t : List Nat),
    (B ++ x :: t).drop (B.length + 1) = t := by
  intro B
  induction B with
  | nil => intro x t; simp
  | cons b B2 ih => intro x t; simpa using ih x t

theorem hostIDFromIndexKey_spec (B idb : List Nat) (hB : 35 ∉ B) :
    hostIDFromIndexKey (1 :: (B ++ 35 :: idb)) = idb := by
  unfold hostIDFromIndexKey
  have h1 : bytesIndexGo 35 (1 :: (B ++ 35 :: idb)) = some (B.length + 1) := by
    simp [bytesIndexGo, bytesIndexGo_append_sep idb B hB]
  rw [h1]
  show (1 :: (B ++ 35 :: idb)).drop (B.length + 1 + 1) = idb
  rw [List.drop_succ_cons]
  exact drop_len_succ B 35 idb

theorem set_append_len {α : Type} : ∀ (A : List α) (t : List α) (x y : α),
    (A ++ y :: t).set A.length x = A ++ x :: t := by
  intro A
  induction A with
  | nil => intro t x y; simp
  | cons a A2 ih => intro t x y; simpa using ih t x y

theorem take_succ_eq {α : Type} : ∀ (l : List α) (k : Nat) (h : k < l.length),
    l.take (k + 1) = l.take k ++ [l.get ⟨k, h⟩] := by
  intro l
  induction l with
  | nil => intro k h; simp at h
  | cons a l2 ih =>
    intro k h
    cases k with
    | zero => rfl
    | succ k2 =>
      have hk2 : k2 < l2.length := by simpa using h
      rw [List.take_succ_cons, List.take_succ_cons, ih k2 hk2]
      rfl

theorem drop_eq_get_cons {α : Type} : ∀ (l : List α) (k : Nat) (h : k < l.length),
    l.drop k = l.get ⟨k, h⟩ :: l.drop (k + 1) := by
  intro l
  induction l with
  | nil => intro k h; simp at h
  | cons a l2 ih =>
    intro k h
    cases k with
    | zero => rfl
    | succ k2 =>
      have hk2 : k2 < l2.length := by simpa using h
      simpa using ih k2 hk2

theorem createHostsState_zero (b : String) (n : Nat) (gens : List GenData) :
    createHostsState b n gens 0 = List.replicate n zeroHost := by
  simp [createHostsState]

theorem createHostsState_length (b : String) (n : Nat) (gens : List GenData)
    (k : Nat) (hk : k ≤ n) (hlen : gens.length = n) :
    (createHostsState b n gens k).length = n := by
  simp [createHostsState, hlen]
  omega

theorem set_append_len_eq {α : Type} (A t : List α) (x y : α) (k : Nat)
    (hk : A.length = k) : (A ++ y :: t).set k x = A ++ x :: t := by
  subst hk
  exact set_append_len A t x y

theorem createHostsState_set (b : String) (gens : List GenData) (n k : Nat)
    (hk : k < n) (hlen : gens.length = n) :
    (createHostsState b n gens k).set k
        (mkHost b (gens.get ⟨k, by omega⟩)) = createHostsState b n gens (k + 1) := by
  have hA : ((gens.take k).map (mkHost b)).length = k := by
    simp [hlen]
    omega
  have hrep : List.replicate (n - k) zeroHost =
      zeroHost :: List.replicate (n - (k + 1)) zeroHost := by
    have h2 : n - k = (n - (k + 1)) + 1 := by omega
    rw [h2, List.replicate_succ]
  have hkl : k < gens.length := by omega
  rw [createHostsState, createHostsState, hrep,
    set_append_len_eq _ _ _ _ k hA, take_succ_eq gens k hkl, List.map_append]
  simp

theorem createHostsGo_run (b : String) (gens : List GenData) (n : Nat)
    (hlen : gens.length = n) :
    ∀ (f k : Nat) (db : DB), k + f ≤ n →
      CreateHostsGo b (createHostsState b n gens k) db k f (gens.drop k) =
        .ok (createHostsState b n gens (k + f),
             applyWrites db (segWrites b n gens k f)) := by
  intro f
  induction f with
  | zero =>
    intro k db _
    simp [CreateHostsGo, segWrites, applyWrites]
  | succ f ih =>
    intro k db hk
    have hkn : k < n := by omega
    have hkl : k < gens.length := by omega
    rw [drop_eq_get_cons gens k hkl]
    have hstep : CreateHostsGo b (createHostsState b n gens k) db k (f + 1)
        (gens.get ⟨k, hkl⟩ :: gens.drop (k + 1)) =
        (match StoreHosts db ((createHostsState b n gens k).set k
            (mkHost b (gens.get ⟨k, hkl⟩))) with
          | .error e => (.error e : Except String (List Host × DB))
          | .ok db2 => CreateHostsGo b ((createHostsState b n gens k).set k
              (mkHost b (gens.get ⟨k, hkl⟩))) db2 (k + 1) f (gens.drop (k + 1))) := rfl
    have hset : (createHostsState b n gens k).set k
        (mkHost b (gens.get ⟨k, hkl⟩)) = createHostsState b n gens (k + 1) :=
      createHostsState_set b gens n k hkn hlen
    have hne : ¬((createHostsState b n gens (k + 1)).length = 0) := by
      rw [createHostsState_length b n gens (k + 1) (by omega) hlen]
      omega
    have hstore : StoreHosts db (createHostsState b n gens (k + 1)) =
        .ok (applyWrites db (hostWrites (createHostsState b n gens (k + 1)))) := by
      simp [StoreHosts, hne]
    rw [hstep, hset, hstore]
    show CreateHostsGo b (createHostsState b n gens (k + 1))
        (applyWrites db (hostWrites (createHostsState b n gens (k + 1))))
        (k + 1) f (gens.drop (k + 1)) =
      Except.ok (createHostsState b n gens (k + (f + 1)),
        applyWrites db (segWrites b n gens k (f + 1)))
    rw [ih (k + 1) (applyWrites db (hostWrites (createHostsState b n gens (k + 1))))
      (by omega)]
    have hidx : k + 1 + f = k + (f + 1) := by omega
    rw [hidx]
    rw [show segWrites b n gens k (f + 1) =
        hostWrites (createHostsState b n gens (k + 1)) ++
          segWrites b n gens (k + 1) f from rfl,
      applyWrites_append]

theorem map_pairwise_ne_inj {α β : Type} (f : α → β) :
    ∀ l : List α, (l.map f).Pairwise (fun x y => x ≠ y) →
      ∀ a ∈ l, ∀ c ∈ l, f a = f c → a = c := by
  intro l
  induction l with
  | nil => intro _ a ha; simp at ha
  | cons x rest ih =>
    intro hp a ha c hc hf
    have hx : ∀ y ∈ rest, f x ≠ f y := by
      intro y hy
      exact (List.pairwise_cons.mp hp).1 (f y) (List.mem_map_of_mem f hy)
    have hrest := (List.pairwise_cons.mp hp).2
    rcases List.mem_cons.mp ha with rfl | ha2
    · rcases List.mem_cons.mp hc with rfl | hc2
      · rfl
      · exact absurd hf (hx c hc2)
    · rcases List.mem_cons.mp hc with rfl | hc2
      · exact absurd hf.symm (hx a ha2)
      · exact ih hrest a ha2 c hc2 hf

theorem prim_ne_idx (h1 h2 : Host) : hostPrimKey h1 ≠ hostIdxKey h2 := by
  simp [hostPrimKey_eq, hostIdxKey_eq]

theorem mem_hostWrites {kv : List Nat × StoredVal} {hs : List Host} :
    kv ∈ hostWrites hs ↔
      ∃ h ∈ hs, kv = (hostPrimKey h, .hostVal h) ∨ kv = (hostIdxKey h, .emptyVal) := by
  simp [hostWrites, List.mem_flatMap]

theorem mem_segWrites (b : String) (n : Nat) (gens : List GenData) :
    ∀ (f k : Nat) (kv : List Nat × StoredVal),
      kv ∈ segWrites b n gens k f ↔
        ∃ m, m < f ∧ kv ∈ hostWrites (createHostsState b n gens (k + m + 1)) := by
  intro f
  induction f with
  | zero => intro k kv; simp [segWrites]
  | succ f ih =>
    intro k kv
    rw [show segWrites b n gens k (f + 1) =
      hostWrites (createHostsState b n gens (k + 1)) ++ segWrites b n gens (k + 1) f
      from rfl, List.mem_append, ih (k + 1) kv]
    constructor
    · rintro (h | ⟨m, hm, hmem⟩)
      · exact ⟨0, by omega, by simpa using h⟩
      · exact ⟨m + 1, by omega, by
          rw [show k + (m + 1) + 1 = k + 1 + m + 1 from by omega]; exact hmem⟩
    · rintro ⟨m, hm, hmem⟩
      cases m with
      | zero => exact Or.inl (by simpa using hmem)
      | succ m2 =>
        exact Or.inr ⟨m2, by omega, by
          rw [show k + 1 + m2 + 1 = k + (m2 + 1) + 1 from by omega]; exact hmem⟩

theorem mem_createHostsState {b : String} {n : Nat} {gens : List GenData}
    {k : Nat} {h0 : Host} :
    h0 ∈ createHostsState b n gens k ↔
      (∃ g ∈ gens.take k, h0 = mkHost b g) ∨ (h0 = zeroHost ∧ k < n) := by
  have hrep : h0 ∈ List.replicate (n - k) zeroHost ↔ (h0 = zeroHost ∧ k < n) := by
    rw [List.mem_replicate]
    constructor
    · rintro ⟨h1, h2⟩; exact ⟨h2, by omega⟩
    · rintro ⟨h1, h2⟩; exact ⟨by omega, h1⟩
  rw [createHostsState, List.mem_append, hrep, List.mem_map]
  constructor
  · rintro (⟨g, hg, hmk⟩ | h)
    · exact Or.inl ⟨g, hg, hmk.symm⟩
    · exact Or.inr h
  · rintro (⟨g, hg, hmk⟩ | h)
    · exact Or.inl ⟨g, hg, hmk.symm⟩
    · exact Or.inr h

theorem mem_take_of_le {α : Type} {l : List α} {a : α} {m k : Nat}
    (hmk : m ≤ k) (h : a ∈ l.take m) : a ∈ l.take k := by
  have h1 : l.take m = (l.take k).take m := by
    rw [List.take_take, Nat.min_eq_left hmk]
  exact List.take_subset _ _ (h1 ▸ h)

/-- The store after k CreateHosts iterations from the empty store: the
primary and hostname-index records of every host generated so far are
present with their final values; when the batch has at least two slots the
zero-valued placeholder's records are present too; and nothing else is. -/
theorem createHosts_db_facts (b : String) (gens : List GenData) (n k : Nat)
    (hlen : gens.length = n) (hk1 : 1 ≤ k) (hkn : k ≤ n)
    (hids : ∀ g1 ∈ gens, ∀ g2 ∈ gens, g1.ulid = g2.ulid → g1 = g2)
    (hzero : ∀ g ∈ gens, g.ulid ≠ List.replicate 16 0) :
    (∀ g0 ∈ gens.take k,
      dbGet (applyWrites [] (segWrites b n gens 0 k)) (hostPrimKey (mkHost b g0)) =
        some (.hostVal (mkHost b g0)) ∧
      dbGet (applyWrites [] (segWrites b n gens 0 k)) (hostIdxKey (mkHost b g0)) =
        some .emptyVal) ∧
    (2 ≤ n →
      dbGet (applyWrites [] (segWrites b n gens 0 k)) (hostPrimKey zeroHost) =
        some (.hostVal zeroHost) ∧
      dbGet (applyWrites [] (segWrites b n gens 0 k)) (hostIdxKey zeroHost) =
        some .emptyVal) ∧
    (∀ key, dbGet (applyWrites [] (segWrites b n gens 0 k)) key ≠ none →
      (∃ g0 ∈ gens.take k,
        key = hostPrimKey (mkHost b g0) ∨ key = hostIdxKey (mkHost b g0)) ∨
      (2 ≤ n ∧ (key = hostPrimKey zeroHost ∨ key = hostIdxKey zeroHost))) := by
  have hbase : ∀ key, dbGet (applyWrites [] (segWrites b n gens 0 k)) key =
      lookupLast (segWrites b n gens 0 k) key := by
    intro key
    rw [dbGet_applyWrites]
    cases lookupLast (segWrites b n gens 0 k) key with
    | some v => rfl
    | none => rfl
  -- the host behind any write pair
  have hpairs : ∀ kv ∈ segWrites b n gens 0 k,
      ∃ h0, (kv = (hostPrimKey h0, .hostVal h0) ∨ kv = (hostIdxKey h0, .emptyVal)) ∧
        ((∃ g ∈ gens.take k, h0 = mkHost b g) ∨ (h0 = zeroHost ∧ 2 ≤ n)) := by
    intro kv hkv
    rcases (mem_segWrites b n gens k 0 kv).mp hkv with ⟨m, hm, hmem⟩
    rcases mem_hostWrites.mp hmem with ⟨h0, hh0, hform⟩
    refine ⟨h0, hform, ?_⟩
    rcases mem_createHostsState.mp hh0 with ⟨g, hg, rfl⟩ | ⟨rfl, hlt⟩
    · exact Or.inl ⟨g, mem_take_of_le (by omega) hg, rfl⟩
    · exact Or.inr ⟨rfl, by omega⟩
  have htake_sub : ∀ g ∈ gens.take k, g ∈ gens := fun g hg => List.take_subset _ _ hg
  refine ⟨?_, ?_, ?_⟩
  · -- generated hosts retrievable
    intro g0 hg0
    have hg0g : g0 ∈ gens := htake_sub g0 hg0
    have hexp : (hostPrimKey (mkHost b g0), StoredVal.hostVal (mkHost b g0)) ∈
        segWrites b n gens 0 k := by
      rw [mem_segWrites b n gens k 0]
      refine ⟨k - 1, by omega, ?_⟩
      rw [mem_hostWrites]
      refine ⟨mkHost b g0, ?_, Or.inl rfl⟩
      rw [mem_createHostsState]
      exact Or.inl ⟨g0, by rw [show 0 + (k - 1) + 1 = k from by omega]; exact hg0, rfl⟩
    have hexi : (hostIdxKey (mkHost b g0), StoredVal.emptyVal) ∈
        segWrites b n gens 0 k := by
      rw [mem_segWrites b n gens k 0]
      refine ⟨k - 1, by omega, ?_⟩
      rw [mem_hostWrites]
      refine ⟨mkHost b g0, ?_, Or.inr rfl⟩
      rw [mem_createHostsState]
      exact Or.inl ⟨g0, by rw [show 0 + (k - 1) + 1 = k from by omega]; exact hg0, rfl⟩
    constructor
    · rw [hbase]
      apply lookupLast_eq_some_of_const ⟨_, hexp, rfl⟩
      intro kv hkv hk0
      rcases hpairs kv hkv with ⟨h0, hform | hform, hcase⟩
      · -- primary pair: ids must agree
        rw [hform] at hk0 ⊢
        simp only at hk0 ⊢
        rw [hostPrimKey_eq, hostPrimKey_eq] at hk0
        have hid : h0.id = (mkHost b g0).id := (List.cons.injEq _ _ _ _).mp hk0 |>.2
        rcases hcase with ⟨g, hg, rfl⟩ | ⟨rfl, _⟩
        · have : g = g0 := hids g (htake_sub g hg) g0 hg0g hid
          rw [this]
        · exact absurd hid.symm (by
            simpa [mkHost, zeroHost] using hzero g0 hg0g)
      · rw [hform] at hk0
        simp only at hk0
        exact absurd hk0.symm (prim_ne_idx (mkHost b g0) h0)
    · rw [hbase]
      apply lookupLast_eq_some_of_const ⟨_, hexi, rfl⟩
      intro kv hkv hk0
      rcases hpairs kv hkv with ⟨h0, hform | hform, hcase⟩
      · rw [hform] at hk0
        simp only at hk0
        exact absurd hk0 (prim_ne_idx h0 (mkHost b g0))
      · rw [hform]
  · -- placeholder records
    intro hn2
    have hexp : (hostPrimKey zeroHost, StoredVal.hostVal zeroHost) ∈
        segWrites b n gens 0 k := by
      rw [mem_segWrites b n gens k 0]
      refine ⟨0, by omega, ?_⟩
      rw [mem_hostWrites]
      refine ⟨zeroHost, ?_, Or.inl rfl⟩
      rw [mem_createHostsState]
      exact Or.inr ⟨rfl, by omega⟩
    have hexi : (hostIdxKey zeroHost, StoredVal.emptyVal) ∈
        segWrites b n gens 0 k := by
      rw [mem_segWrites b n gens k 0]
      refine ⟨0, by omega, ?_⟩
      rw [mem_hostWrites]
      refine ⟨zeroHost, ?_, Or.inr rfl⟩
      rw [mem_createHostsState]
      exact Or.inr ⟨rfl, by omega⟩
    constructor
    · rw [hbase]
      apply lookupLast_eq_some_of_const ⟨_, hexp, rfl⟩
      intro kv hkv hk0
      rcases hpairs kv hkv with ⟨h0, hform | hform, hcase⟩
      · rw [hform] at hk0 ⊢
        simp only at hk0 ⊢
        rw [hostPrimKey_eq, hostPrimKey_eq] at hk0
        have hid : h0.id = zeroHost.id := (List.cons.injEq _ _ _ _).mp hk0 |>.2
        rcases hcase with ⟨g, hg, rfl⟩ | ⟨rfl, _⟩
        · exact absurd hid (by
            simpa [mkHost, zeroHost] using hzero g (htake_sub g hg))
        · rfl
      · rw [hform] at hk0
        simp only at hk0
        exact absurd hk0.symm (prim_ne_idx zeroHost h0)
    · rw [hbase]
      apply lookupLast_eq_some_of_const ⟨_, hexi, rfl⟩
      intro kv hkv hk0
      rcases hpairs kv hkv with ⟨h0, hform | hform, hcase⟩
      · rw [hform] at hk0
        simp only at hk0
        exact absurd hk0 (prim_ne_idx h0 zeroHost)
      · rw [hform]
  · -- completeness
    intro key hkey
    rw [hbase] at hkey
    have hex : ∃ kv ∈ segWrites b n gens 0 k, kv.1 = key := by
      by_contra hc
      push_neg at hc
      exact hkey (lookupLast_eq_none.mpr hc)
    rcases hex with ⟨kv, hkv, hk1eq⟩
    rcases hpairs kv hkv with ⟨h0, hform | hform, hcase⟩
    · rw [hform] at hk1eq
      simp only at hk1eq
      rcases hcase with ⟨g, hg, rfl⟩ | ⟨rfl, hn2⟩
      · exact Or.inl ⟨g, hg, Or.inl hk1eq.symm⟩
      · exact Or.inr ⟨hn2, Or.inl hk1eq.symm⟩
    · rw [hform] at hk1eq
      simp only at hk1eq
      rcases hcase with ⟨g, hg, rfl⟩ | ⟨rfl, hn2⟩
      · exact Or.inl ⟨g, hg, Or.inr hk1eq.symm⟩
      · exact Or.inr ⟨hn2, Or.inr hk1eq.symm⟩

/-- C3 (amended).  Running the first k iterations of CreateHosts(n) from an
empty store (with an entropy stream of pairwise-distinct non-zero ULIDs)
persists exactly the primary and hostname-index records of the first k
generated hosts — durable partial progress — plus, whenever the batch has
two or more slots, the records of the zero-valued placeholder host, because
every iteration stores the whole pre-allocated batch slice including its
not-yet-generated zero suffix.  Nothing else is in the store. -/
theorem createHosts_partial_progress (b : String) (gens : List GenData)
    (n k : Nat)
    (hlen : gens.length = n) (hk1 : 1 ≤ k) (hkn : k ≤ n)
    (hids : (gens.map (fun g => g.ulid)).Pairwise (fun x y => x ≠ y))
    (hzero : ∀ g ∈ gens, g.ulid ≠ List.replicate 16 0) :
    ∃ dbk,
      CreateHostsGo b (List.replicate n zeroHost) [] 0 k gens =
        .ok (createHostsState b n gens k, dbk) ∧
      (∀ g0 ∈ gens.take k,
        dbGet dbk (hostPrimKey (mkHost b g0)) = some (.hostVal (mkHost b g0)) ∧
        dbGet dbk (hostIdxKey (mkHost b g0)) = some .emptyVal) ∧
      (2 ≤ n →
        dbGet dbk (hostPrimKey zeroHost) = some (.hostVal zeroHost) ∧
        dbGet dbk (hostIdxKey zeroHost) = some .emptyVal) ∧
      (∀ key, dbGet dbk key ≠ none →
        (∃ g0 ∈ gens.take k,
          key = hostPrimKey (mkHost b g0) ∨ key = hostIdxKey (mkHost b g0)) ∨
        (2 ≤ n ∧ (key = hostPrimKey zeroHost ∨ key = hostIdxKey zeroHost))) := by
  have hrun := createHostsGo_run b gens n hlen k 0 [] (by omega)
  rw [createHostsState_zero] at hrun
  have hfacts := createHosts_db_facts b gens n k hlen hk1 hkn
    (map_pairwise_ne_inj _ gens hids) hzero
  exact ⟨applyWrites [] (segWrites b n gens 0 k), by simpa using hrun,
    hfacts.1, hfacts.2.1, hfacts.2.2⟩

/-- Witness for C3's theorem: one iteration of CreateHosts(2) persists the
first generated host and the zero placeholder. -/
theorem createHosts_partial_progress_witness :
    ∃ dbk,
      CreateHostsGo cexBase (List.replicate 2 zeroHost) [] 0 1 cexGens =
        .ok (createHostsState cexBase 2 cexGens 1, dbk) ∧
      dbGet dbk (hostPrimKey (mkHost cexBase
        ⟨"alpha", "0a0b0c0d", 1 :: List.replicate 15 0⟩)) =
        some (.hostVal (mkHost cexBase
          ⟨"alpha", "0a0b0c0d", 1 :: List.replicate 15 0⟩)) ∧
      dbGet dbk (hostPrimKey zeroHost) = some (.hostVal zeroHost) := by
  obtain ⟨dbk, h1, h2, h3, _⟩ := createHosts_partial_progress cexBase cexGens 2 1
    (by decide) (by decide) (by decide) (by decide) (by decide)
  refine ⟨dbk, h1, ?_, (h3 (by omega)).1⟩
  exact (h2 ⟨"alpha", "0a0b0c0d", 1 :: List.replicate 15 0⟩ (by decide)).1

/-- C4.  For every n in [1,50], given an entropy stream whose n draws have
pairwise-distinct non-zero ULIDs and pairwise-distinct hostname byte
strings free of the byte 35, CreateHosts(n) from an empty store succeeds
and returns exactly the n generated hosts, with pairwise-distinct ids and
pairwise-distinct hostnames, every one immediately retrievable both by
FindHostByID and by FindHostByHostname. -/
theorem createHosts_returns_distinct_retrievable (b : String) (n : Nat)
    (gens : List GenData)
    (hn1 : 1 ≤ n) (hn50 : n ≤ 50) (hlen : gens.length = n)
    (hids : (gens.map (fun g => g.ulid)).Pairwise (fun x y => x ≠ y))
    (hzero : ∀ g ∈ gens, g.ulid ≠ List.replicate 16 0)
    (hhn : (gens.map (fun g => strBytes (mkHost b g).hostname)).Pairwise
      (fun x y => x ≠ y))
    (hhash : ∀ g ∈ gens, (35 : Nat) ∉ strBytes (mkHost b g).hostname) :
    ∃ db2,
      CreateHosts b [] n gens = .ok (gens.map (mkHost b), db2) ∧
      (gens.map (mkHost b)).length = n ∧
      ((gens.map (mkHost b)).map (fun h => h.id)).Pairwise (fun x y => x ≠ y) ∧
      ((gens.map (mkHost b)).map (fun h => h.hostname)).Pairwise
        (fun x y => x ≠ y) ∧
      ∀ h0 ∈ gens.map (mkHost b),
        FindHostByID db2 h0.id = .ok h0 ∧
        FindHostByHostname db2 h0.hostname = .ok h0 := by
  have htaken : gens.take n = gens := List.take_of_length_le (by omega)
  have hstate : createHostsState b n gens n = gens.map (mkHost b) := by
    simp [createHostsState, htaken]
  have hrun := createHostsGo_run b gens n hlen n 0 [] (by omega)
  rw [createHostsState_zero] at hrun
  have hfacts := createHosts_db_facts b gens n n hlen (by omega) (by omega)
    (map_pairwise_ne_inj _ gens hids) hzero
  rw [htaken] at hfacts
  set db2 := applyWrites [] (segWrites b n gens 0 n) with hdb2
  have hsorted : DBSorted db2 := applyWrites_sorted _ [] List.Pairwise.nil
  refine ⟨db2, ?_, by simp [hlen], ?_, ?_, ?_⟩
  · show CreateHostsGo b (List.replicate n zeroHost) [] 0 n gens = _
    simpa [hstate] using hrun
  · have hmm : (gens.map (mkHost b)).map (fun h => h.id) =
        gens.map (fun g => g.ulid) := by
      rw [List.map_map]
      rfl
    rw [hmm]
    exact hids
  · have hbytes : gens.Pairwise (fun a c =>
        strBytes (mkHost b a).hostname ≠ strBytes (mkHost b c).hostname) :=
      (List.pairwise_map).mp hhn
    have hnames : gens.Pairwise (fun a c =>
        (mkHost b a).hostname ≠ (mkHost b c).hostname) :=
      hbytes.imp (fun h hc => h (by rw [hc]))
    rw [List.map_map]
    exact (List.pairwise_map).mpr hnames
  · intro h0 hmem
    obtain ⟨g0, hg0, rfl⟩ := List.mem_map.mp hmem
    have hprim := (hfacts.1 g0 hg0).1
    have hidx := (hfacts.1 g0 hg0).2
    have hB := hhash g0 hg0
    have hBne := mkHost_hostname_bytes_ne_nil b g0
    constructor
    · show FindHostByID db2 (mkHost b g0).id = .ok (mkHost b g0)
      unfold FindHostByID
      rw [show entryKey hostKeyPfx 0 (mkHost b g0).id =
        hostPrimKey (mkHost b g0) from rfl, hprim]
    · have hpfx_eq : entryKey hostKeyPfx hostHostnameIdx
          (strBytes ((mkHost b g0).hostname ++ "#")) =
          1 :: (strBytes (mkHost b g0).hostname ++ [35]) := by
        have h1 : Nat.lor (Nat.land hostHostnameIdx indexKeyMask) hostKeyPfx = 1 := by
          decide
        have h2 : strBytes "#" = [35] := by decide
        simp [entryKey, h1, strBytes_append, h2]
      have hxmem : (hostIdxKey (mkHost b g0), StoredVal.emptyVal) ∈ db2 :=
        mem_of_dbGet hidx
      have hxpred : (1 :: (strBytes (mkHost b g0).hostname ++ [35])).isPrefixOf
          (hostIdxKey (mkHost b g0)) = true := by
        rw [hostIdxKey_eq]
        apply (List.isPrefixOf_iff_prefix).mpr
        exact ⟨(mkHost b g0).id, by simp⟩
      have huni : ∀ kv ∈ db2,
          ((1 :: (strBytes (mkHost b g0).hostname ++ [35])).isPrefixOf kv.1) = true →
          kv.1 = (hostIdxKey (mkHost b g0), StoredVal.emptyVal).1 := by
        intro kv hkv hpred
        rcases dbGet_isSome_of_mem db2 kv hkv with ⟨v, hv⟩
        have hclass := hfacts.2.2 kv.1 (by rw [hv]; simp)
        have hpre : (1 :: (strBytes (mkHost b g0).hostname ++ [35])) <+: kv.1 :=
          (List.isPrefixOf_iff_prefix).mp hpred
        rcases hclass with ⟨g, hg, hcase | hcase⟩ | ⟨hn2, hcase | hcase⟩
        · rw [hcase, hostPrimKey_eq] at hpre
          exact absurd (List.cons_prefix_cons.mp hpre).1 (by decide)
        · rw [hcase, hostIdxKey_eq] at hpre
          have h12 := (List.cons_prefix_cons.mp hpre).2
          have hBeq := sep_prefix_eq _ _ _ hB (hhash g hg) h12
          have hgg : g = g0 :=
            map_pairwise_ne_inj _ gens hhn g hg g0 hg0 hBeq.symm
          rw [hcase, hgg]
        · rw [hcase, hostPrimKey_eq] at hpre
          exact absurd (List.cons_prefix_cons.mp hpre).1 (by decide)
        · rw [hcase, hostIdxKey_eq] at hpre
          have h12 := (List.cons_prefix_cons.mp hpre).2
          have hz : strBytes zeroHost.hostname = ([] : List Nat) := by decide
          rw [hz] at h12
          exact absurd (sep_prefix_eq _ _ _ hB (by simp) h12) hBne
      have hscan : dbScanPfx db2 (1 :: (strBytes (mkHost b g0).hostname ++ [35])) =
          [(hostIdxKey (mkHost b g0), StoredVal.emptyVal)] :=
        filter_single_sorted _ db2 hsorted _ hxmem hxpred huni
      have hkeyid : hostIDFromIndexKey (hostIdxKey (mkHost b g0)) =
          (mkHost b g0).id := by
        rw [hostIdxKey_eq]
        exact hostIDFromIndexKey_spec _ _ hB
      show FindHostByHostname db2 (mkHost b g0).hostname = .ok (mkHost b g0)
      unfold FindHostByHostname
      rw [hpfx_eq]
      rw [show dbScanPfx db2 (1 :: (strBytes (mkHost b g0).hostname ++ [35])) =
        [(hostIdxKey (mkHost b g0), StoredVal.emptyVal)] from hscan]
      simp only [List.head?_cons]
      rw [hkeyid, show entryKey hostKeyPfx 0 (mkHost b g0).id =
        hostPrimKey (mkHost b g0) from rfl, hprim]

/-- Witness for C4's theorem: CreateHosts(2) with a concrete entropy stream
returns two hosts, both retrievable by id and hostname. -/
theorem createHosts_returns_distinct_retrievable_witness :
    ∃ db2,
      CreateHosts cexBase [] 2 cexGens =
        .ok (cexGens.map (mkHost cexBase), db2) ∧
      ∀ h0 ∈ cexGens.map (mkHost cexBase),
        FindHostByID db2 h0.id = .ok h0 ∧
        FindHostByHostname db2 h0.hostname = .ok h0 := by
  obtain ⟨db2, h1, _, _, _, h5⟩ := createHosts_returns_distinct_retrievable
    cexBase 2 cexGens (by decide) (by decide) (by decide) (by decide)
    (by decide) (by decide) (by decide)
  exact ⟨db2, h1, h5⟩

theorem decodeLogAt_of_wf {db : DB} (hwf : WFCaptureIdx db) {hid : List Nat}
    (hlen16 : hid.length = 16) {kv : List Nat × StoredVal} (hkv : kv ∈ db)
    (hpre : (17 :: hid) <+: kv.1) :
    ∃ e, decodeLogAt db kv.1 = .ok e ∧ e.hostID = hid ∧ e.id = kv.1.drop 17 := by
  rcases hpre with ⟨t0, ht⟩
  have hhead : kv.1.head? = some 17 := by rw [← ht]; rfl
  rcases hwf kv hkv hhead with ⟨hlen33, e, hget, hhost, hide⟩
  have hdrop : kv.1.drop 17 = t0 := by
    rw [← ht]
    show ((17 :: hid) ++ t0).drop 17 = t0
    rw [List.cons_append, List.drop_succ_cons, ← hlen16, List.drop_left]
  have htake : (kv.1.drop 1).take 16 = hid := by
    rw [← ht]
    show (((17 :: hid) ++ t0).drop 1).take 16 = hid
    rw [List.cons_append, List.drop_succ_cons, List.drop_zero, ← hlen16,
      List.take_left]
  refine ⟨e, ?_, by rw [hhost, htake], hide⟩
  unfold decodeLogAt
  rw [hget]

theorem scan_premise (db : DB) (hid : List Nat) :
    ∀ kv ∈ dbScanPfx db (entryKey httpLogKeyPfx httpLogHostIDIdx hid),
      kv ∈ db ∧ (17 :: hid) <+: kv.1 := by
  intro kv hkv
  rw [dbScanPfx, List.mem_filter] at hkv
  refine ⟨hkv.1, ?_⟩
  have := hkv.2
  rw [entryKey_log_scan] at this
  exact (List.isPrefixOf_iff_prefix).mp this

theorem collectEntries_wf (db : DB) (hwf : WFCaptureIdx db) (hid : List Nat)
    (hlen16 : hid.length = 16) :
    ∀ l : DB, (∀ kv ∈ l, kv ∈ db ∧ (17 :: hid) <+: kv.1) →
      collectEntries db l = .ok (l.filterMap (fun kv =>
        match decodeLogAt db kv.1 with
        | .ok e => some e
        | .error _ => none)) ∧
      ∀ e ∈ l.filterMap (fun kv =>
        match decodeLogAt db kv.1 with
        | .ok e => some e
        | .error _ => none), e.hostID = hid := by
  intro l
  induction l with
  | nil => intro _; simp [collectEntries]
  | cons kv rest ih =>
    intro hl
    rcases hl kv (List.mem_cons_self kv rest) with ⟨hkvdb, hkvpre⟩
    rcases decodeLogAt_of_wf hwf hlen16 hkvdb hkvpre with ⟨e, hdec, hhost, _⟩
    rcases ih (fun y hy => hl y (List.mem_cons_of_mem _ hy)) with ⟨ih1, ih2⟩
    constructor
    · simp [collectEntries, hdec, ih1, List.filterMap_cons]
    · intro e2 he2
      rw [List.filterMap_cons] at he2
      simp only [hdec] at he2
      rcases List.mem_cons.mp he2 with rfl | he3
      · exact hhost
      · exact ih2 e2 he3

theorem listHTTPLogEntries_flatMap (db : DB) (hwf : WFCaptureIdx db) :
    ∀ hostIDs : List (List Nat), (∀ hid ∈ hostIDs, hid.length = 16) →
      ListHTTPLogEntries db hostIDs = .ok (hostIDs.flatMap (scanGroup db)) := by
  intro hostIDs
  induction hostIDs with
  | nil => intro _; simp [ListHTTPLogEntries]
  | cons hid rest ih =>
    intro h
    have hcol := collectEntries_wf db hwf hid (h hid (List.mem_cons_self hid rest))
      (dbScanPfx db (entryKey httpLogKeyPfx httpLogHostIDIdx hid))
      (scan_premise db hid)
    have hrest := ih (fun y hy => h y (List.mem_cons_of_mem _ hy))
    show (match collectEntries db
        (dbScanPfx db (entryKey httpLogKeyPfx httpLogHostIDIdx hid)) with
      | .error e => (.error e : Except DbErr (List HTTPLogEntryRec))
      | .ok es =>
        match ListHTTPLogEntries db rest with
        | .error e => .error e
        | .ok more => .ok (es ++ more)) = _
    rw [hcol.1, hrest]
    simp [scanGroup]

theorem scanGroup_hostIDs (db : DB) (hwf : WFCaptureIdx db) (hid : List Nat)
    (hlen16 : hid.length = 16) :
    ∀ e ∈ scanGroup db hid, e.hostID = hid :=
  (collectEntries_wf db hwf hid hlen16
    (dbScanPfx db (entryKey httpLogKeyPfx httpLogHostIDIdx hid))
    (scan_premise db hid)).2

theorem scanGroup_ids_ordered (db : DB) (hsorted : DBSorted db)
    (hwf : WFCaptureIdx db) (hid : List Nat) (hlen16 : hid.length = 16) :
    ((scanGroup db hid).map (fun e => e.id)).Pairwise
      (fun x y => lexLtB x y = true) := by
  have hscansorted : (dbScanPfx db (entryKey httpLogKeyPfx httpLogHostIDIdx hid)).Pairwise
      (fun a c => lexLtB a.1 c.1 = true) :=
    List.Pairwise.sublist (List.filter_sublist db) hsorted
  have hprem := scan_premise db hid
  rw [scanGroup]
  revert hscansorted hprem
  generalize dbScanPfx db (entryKey httpLogKeyPfx httpLogHostIDIdx hid) = l
  induction l with
  | nil => intro _ _; simp
  | cons kv rest ih =>
    intro hp hprem
    rcases hprem kv (List.mem_cons_self kv rest) with ⟨hkvdb, hkvpre⟩
    rcases decodeLogAt_of_wf hwf hlen16 hkvdb hkvpre with ⟨e, hdec, _, hide⟩
    rw [List.filterMap_cons]
    simp only [hdec]
    rw [List.map_cons]
    refine List.pairwise_cons.mpr ⟨?_, ih (List.pairwise_cons.mp hp).2
      (fun y hy => hprem y (List.mem_cons_of_mem _ hy))⟩
    intro y hy
    rcases List.mem_map.mp hy with ⟨e2, he2, rfl⟩
    rcases List.mem_filterMap.mp he2 with ⟨kv2, hkv2, hf2⟩
    rcases hprem kv2 (List.mem_cons_of_mem _ hkv2) with ⟨hkv2db, hkv2pre⟩
    rcases decodeLogAt_of_wf hwf hlen16 hkv2db hkv2pre with ⟨e2b, hdec2, _, hide2⟩
    have he2b : e2 = e2b := by
      simp only [hdec2] at hf2
      exact (Option.some.inj hf2).symm
    have hklt : lexLtB kv.1 kv2.1 = true :=
      (List.pairwise_cons.mp hp).1 kv2 hkv2
    rcases hkvpre with ⟨t1, ht1⟩
    rcases hkv2pre with ⟨t2, ht2⟩
    have h1 : kv.1.drop 17 = t1 := by
      rw [← ht1]
      show ((17 :: hid) ++ t1).drop 17 = t1
      rw [List.cons_append, List.drop_succ_cons, ← hlen16, List.drop_left]
    have h2 : kv2.1.drop 17 = t2 := by
      rw [← ht2]
      show ((17 :: hid) ++ t2).drop 17 = t2
      rw [List.cons_append, List.drop_succ_cons, ← hlen16, List.drop_left]
    rw [← ht1, ← ht2, lexLtB_append_left] at hklt
    rw [hide, he2b, hide2, h1, h2]
    exact hklt

/-- The capture-index invariant is established by the store operation
itself: writing a capture entry with 16-byte ids whose entry id is fresh
(no existing index entry points to it) preserves well-formedness, because
primary record and index entry are written together. -/
theorem storeHTTPLogEntryDB_preserves_wf (db : DB) (e : HTTPLogEntryRec)
    (hwf : WFCaptureIdx db)
    (hhid : e.hostID.length = 16) (heid : e.id.length = 16)
    (hfresh : ∀ kv ∈ db, kv.1.head? = some 17 → kv.1.drop 17 ≠ e.id) :
    WFCaptureIdx (StoreHTTPLogEntryDB db e) := by
  have hdb2 : StoreHTTPLogEntryDB db e =
      dbSet (dbSet db (logPrimKey e) (.logVal e)) (logIdxKey e) .emptyVal := rfl
  have hpk : logPrimKey e = 16 :: e.id := logPrimKey_eq e
  have hik : logIdxKey e = 17 :: (e.hostID ++ e.id) := logIdxKey_eq e
  intro kv hkv hhead
  rw [hdb2] at hkv
  rcases dbSet_mem _ _ _ kv hkv with rfl | hkv2
  · -- the new index entry
    constructor
    · rw [hik]
      simp [hhid, heid]
    · refine ⟨e, ?_, ?_, ?_⟩
      · have hdropid : ((logIdxKey e, StoredVal.emptyVal).1).drop 17 = e.id := by
          rw [hik]
          show ((17 :: (e.hostID ++ e.id)).drop 17) = e.id
          rw [List.drop_succ_cons, ← hhid, List.drop_left]
        rw [hdropid, entryKey_log_prim, hdb2]
        rw [dbGet_dbSet_ne _ _ _ (by rw [hik]; simp)]
        rw [← hpk]
        exact dbGet_dbSet_self _ _ db
      · rw [hik]
        show e.hostID = ((e.hostID ++ e.id).take 16)
        rw [← hhid, List.take_left]
      · rw [hik]
        show e.id = ((17 :: (e.hostID ++ e.id)).drop 17)
        rw [List.drop_succ_cons, ← hhid, List.drop_left]
  · rcases dbSet_mem _ _ _ kv hkv2 with rfl | hkv3
    · -- the new primary entry begins with byte 16, not 17
      rw [hpk] at hhead
      exact absurd hhead (by simp)
    · -- an old entry: its primary record is untouched
      rcases hwf kv hkv3 hhead with ⟨hlen33, e0, hget0, hhost0, hid0⟩
      refine ⟨hlen33, e0, ?_, hhost0, hid0⟩
      rw [hdb2]
      rw [dbGet_dbSet_ne _ _ _ (by rw [entryKey_log_prim, hik]; simp)]
      rw [dbGet_dbSet_ne _ _ _ (by
        rw [entryKey_log_prim, hpk]
        intro hc
        exact hfresh kv hkv3 hhead (by
          have := (List.cons.injEq _ _ _ _).mp hc
          exact this.2))]
      exact hget0

/-- C6.  On a store whose capture-log index is well formed (every index
entry has its matching primary record — what the atomic
StoreHTTPLogEntry transaction establishes), the capture-entry list
operation returns exactly the concatenation, per requested host id in
caller-supplied order, of that host id's decoded entries; each group holds
only entries whose host id equals the requested one, and within a group
entries come in index order (ascending entry-id byte order, which is
insertion order for time-ordered ids). -/
theorem listHTTPLogEntries_grouping (db : DB) (hostIDs : List (List Nat))
    (hsorted : DBSorted db) (hwf : WFCaptureIdx db)
    (hlen : ∀ hid ∈ hostIDs, hid.length = 16) :
    ListHTTPLogEntries db hostIDs = .ok (hostIDs.flatMap (scanGroup db)) ∧
    (∀ hid ∈ hostIDs, ∀ e ∈ scanGroup db hid, e.hostID = hid) ∧
    (∀ hid ∈ hostIDs,
      ((scanGroup db hid).map (fun e => e.id)).Pairwise
        (fun x y => lexLtB x y = true)) :=
  ⟨listHTTPLogEntries_flatMap db hwf hostIDs hlen,
   fun hid hh => scanGroup_hostIDs db hwf hid (hlen hid hh),
   fun hid hh => scanGroup_ids_ordered db hsorted hwf hid (hlen hid hh)⟩

/-- Witness for C6's theorem: a store with two entries of host A and one of
host B lists [A-entries, B-entry] for the request [A, B], with no
cross-contamination. -/
theorem listHTTPLogEntries_grouping_witness :
    ListHTTPLogEntries capDb [ulidA, ulidB] =
      .ok [entryE1, entryE2, entryE3] ∧
    (∀ e ∈ scanGroup capDb ulidA, e.hostID = ulidA) ∧
    (∀ e ∈ scanGroup capDb ulidB, e.hostID = ulidB) := by
  have hdb : capDb =
      [(logPrimKey entryE1, .logVal entryE1), (logPrimKey entryE2, .logVal entryE2),
       (logPrimKey entryE3, .logVal entryE3), (logIdxKey entryE1, .emptyVal),
       (logIdxKey entryE2, .emptyVal), (logIdxKey entryE3, .emptyVal)] := by decide
  have hsorted : DBSorted capDb := by
    rw [DBSorted]
    decide
  have hwf : WFCaptureIdx capDb := by
    intro kv hkv hhead
    rw [hdb] at hkv
    simp only [List.mem_cons, List.not_mem_nil, or_false] at hkv
    rcases hkv with rfl | rfl | rfl | rfl | rfl | rfl
    · exact absurd hhead (by decide)
    · exact absurd hhead (by decide)
    · exact absurd hhead (by decide)
    · exact ⟨by decide, entryE1, by decide, by decide, by decide⟩
    · exact ⟨by decide, entryE2, by decide, by decide, by decide⟩
    · exact ⟨by decide, entryE3, by decide, by decide, by decide⟩
  have h := listHTTPLogEntries_grouping capDb [ulidA, ulidB] hsorted hwf (by decide)
  refine ⟨?_, fun e he => h.2.1 ulidA (by decide) e he,
    fun e he => h.2.1 ulidB (by decide) e he⟩
  rw [h.1]
  exact congrArg Except.ok (by decide)

/-- C3 (counterexample).  CreateHosts(2) from an empty store: after the
first iteration the store already holds a primary host record decoding to
the zero-valued placeholder host, which is not the generated first host —
the whole pre-allocated batch slice, zero suffix included, is persisted at
every iteration. -/
theorem createHosts_writes_placeholder_cex :
    exceptIsOk cexRun1 = true ∧
    cexArr1 = [mkHost cexBase ⟨"alpha", "0a0b0c0d", 1 :: List.replicate 15 0⟩,
      zeroHost] ∧
    dbGet cexDb1 (hostPrimKey zeroHost) = some (.hostVal zeroHost) ∧
    dbGet cexDb1 (hostIdxKey zeroHost) = some .emptyVal ∧
    zeroHost ≠ mkHost cexBase ⟨"alpha", "0a0b0c0d", 1 :: List.replicate 15 0⟩ := by
  refine ⟨rfl, by decide, by decide, by decide, by decide⟩

end Edena
